import Mathlib

/-!
Verification development for the incremental 2D Delaunay triangulation engine
in scripts/generate/delaunay.py (class Delaunay2d).

Modelling conventions:
* Machine floats (numpy float64) are modelled by exact rationals.  All of the
  predicates of the source except one are polynomial comparisons of
  coordinates, which transfer directly.  The single transcendental test,
  angle1 + angle2 > pi * (1 + EPS) with angle_i = abs(atan2(cross_i, dot_i)),
  is modelled by its exact-real equivalent at threshold pi (see flipNeeded
  below and the lemma flipNeeded_iff_cosine): for angles in [0, pi],
  a1 + a2 > pi iff cos a1 < -cos a2, which is decidable over the rationals
  from the signs of the dot products and a comparison of squared sines.
* Python lists are Lean lists; indexing (including negative indices) is pyGet
  and raises IndexError outside the valid range, as in CPython.
* Python dicts are association lists in insertion order (CPython guarantees
  this); dictUpsert replaces in place, dictDelete removes the key.
* Python sets are duplicate-free lists; setAdd appends only when absent.
  CPython iterates a set of small-int tuples in a deterministic but
  hash-derived order; the model fixes insertion order instead, which is one
  legal deterministic order.
* Exceptions (IndexError, KeyError, ValueError, TypeError, AttributeError,
  NameError) are Except.error with the exception name as the message.
* Unbounded while-loops take a fuel parameter and report exhaustion as an
  error distinct from any Python exception.
-/

/-- An exact rational x.num / x.den, kept unnormalized (no gcd reduction) so
that every arithmetic operation of the model is computable by the kernel.
Every fraction arising from a real input has a positive denominator (validity)
and all the operations the source performs preserve that. -/
structure Frac where
  num : Int
  den : Int
  deriving DecidableEq, Repr

/-- The fraction n / 1. -/
def fi (n : Int) : Frac := ⟨n, 1⟩

/-- The fraction n / d. -/
def fr (n d : Int) : Frac := ⟨n, d⟩

/-- Subtraction of exact fractions (no normalization). -/
def fsub (x y : Frac) : Frac := ⟨x.num * y.den - y.num * x.den, x.den * y.den⟩

/-- Addition of exact fractions (no normalization). -/
def fadd (x y : Frac) : Frac := ⟨x.num * y.den + y.num * x.den, x.den * y.den⟩

/-- Multiplication of exact fractions (no normalization). -/
def fmul (x y : Frac) : Frac := ⟨x.num * y.num, x.den * y.den⟩

/-- Division of exact fractions; in the source division only ever happens by a
positive integer (len(points) or 3), so validity is preserved there. -/
def fdiv (x y : Frac) : Frac := ⟨x.num * y.den, x.den * y.num⟩

/-- Negation of an exact fraction. -/
def fneg (x : Frac) : Frac := ⟨-x.num, x.den⟩

/-- Absolute value of an exact fraction. -/
def fabs (x : Frac) : Frac := ⟨|x.num|, |x.den|⟩

/-- The value of a fraction as a pair (numerator, positive denominator):
(num * den) / den^2 equals num / den and den^2 is positive for every valid
fraction; an invalid fraction (den = 0, which no run on valid inputs ever
produces) is sent to 0 so that the comparison below is a total preorder on the
whole type. -/
def fkey (x : Frac) : Int × Int :=
  if x.den = 0 then (0, 1) else (x.num * x.den, x.den * x.den)

/-- The order x <= y on exact fractions, by cross multiplication of the keys
(whose denominators are positive). -/
def fle (x y : Frac) : Prop := (fkey x).1 * (fkey y).2 ≤ (fkey y).1 * (fkey x).2

/-- The strict order x < y on exact fractions. -/
def flt (x y : Frac) : Prop := (fkey x).1 * (fkey y).2 < (fkey y).1 * (fkey x).2

/-- Value equality of exact fractions (equality of the represented rationals). -/
def feq (x y : Frac) : Prop := (fkey x).1 * (fkey y).2 = (fkey y).1 * (fkey x).2

instance fleDecidable (x y : Frac) : Decidable (fle x y) := by
  unfold fle; infer_instance

instance fltDecidable (x y : Frac) : Decidable (flt x y) := by
  unfold flt; infer_instance

instance feqDecidable (x y : Frac) : Decidable (feq x y) := by
  unfold feq; infer_instance

/-- A 2D point with exact rational coordinates (models a numpy array of
length 2). -/
abbrev Point := Frac × Frac

/-- Componentwise difference of two points, as numpy array subtraction. -/
def psub (a b : Point) : Point := (fsub a.1 b.1, fsub a.2 b.2)

/-- Dot product of two 2D vectors, as numpy.dot. -/
def pdot (a b : Point) : Frac := fadd (fmul a.1 b.1) (fmul a.2 b.2)

/-- The 2x2 determinant d1[0]*d2[1] - d1[1]*d2[0] used by Delaunay2d.getArea. -/
def pcross (a b : Point) : Frac := fsub (fmul a.1 b.2) (fmul a.2 b.1)

/-- The tolerance Delaunay2d.EPS = 1.23456789e-14, as an exact rational. -/
def EPS : Frac := ⟨123456789, 10 ^ 22⟩

/-- Resolve a CPython sequence index (which may be negative) against a length:
some j when the access l[i] succeeds reading position j, none when it raises
IndexError. -/
def pyIndex (n : Nat) (i : Int) : Option Nat :=
  if 0 ≤ i then
    if i.toNat < n then some i.toNat else none
  else
    if 0 ≤ i + n then some (i + n).toNat else none

/-- CPython list read l[i]: supports negative indices, raises IndexError
outside the range. -/
def pyGet {α : Type} (l : List α) (i : Int) : Except String α :=
  match pyIndex l.length i with
  | some j =>
    match l.get? j with
    | some a => Except.ok a
    | none => Except.error "IndexError"
  | none => Except.error "IndexError"

/-- CPython list write l[i] = x (used for the in-place triangle overwrite in
flipOneEdge). -/
def pySet {α : Type} (l : List α) (i : Int) (x : α) : Except String (List α) :=
  match pyIndex l.length i with
  | some j => Except.ok (l.set j x)
  | none => Except.error "IndexError"

/-- Python dict lookup on an association list (keys unique, insertion order). -/
def dictLookup {κ ν : Type} [DecidableEq κ] (m : List (κ × ν)) (k : κ) : Option ν :=
  match m with
  | [] => none
  | (k', v) :: rest => if k' = k then some v else dictLookup rest k

/-- Python dict assignment d[k] = v: replaces the value in place when the key
exists, otherwise appends the binding at the end (CPython insertion order). -/
def dictUpsert {κ ν : Type} [DecidableEq κ] (m : List (κ × ν)) (k : κ) (v : ν) :
    List (κ × ν) :=
  match m with
  | [] => [(k, v)]
  | (k', v') :: rest =>
    if k' = k then (k, v) :: rest else (k', v') :: dictUpsert rest k v

/-- Python del d[k]: removes the binding for k, keeping the order of the rest. -/
def dictDelete {κ ν : Type} [DecidableEq κ] (m : List (κ × ν)) (k : κ) :
    List (κ × ν) :=
  match m with
  | [] => []
  | (a, w) :: rest => if a = k then dictDelete rest k else (a, w) :: dictDelete rest k

/-- Python list(d.keys()) in insertion order. -/
def dictKeys {κ ν : Type} (m : List (κ × ν)) : List κ :=
  m.map (fun b => b.1)

/-- Python set.add: appends the element only when it is not already present. -/
def setAdd {α : Type} [DecidableEq α] (s : List α) (x : α) : List α :=
  if x ∈ s then s else s ++ [x]

/-- Python set union accumulation s |= t, element by element. -/
def setUnion {α : Type} [DecidableEq α] (s t : List α) : List α :=
  t.foldl setAdd s

/-- An edge of the triangulation: a pair of point indices (Python ints). -/
abbrev Edge := Int × Int

/-- Delaunay2d.sortedEdge: the two endpoints in ascending order, as produced by
sorting the 2-element Python list. -/
def sortedEdge (e : Edge) : Edge :=
  if e.1 ≤ e.2 then e else (e.2, e.1)

/-- Delaunay2d.makeKey: tuple with i1 < i2 first. -/
def makeKey (i1 i2 : Int) : Edge :=
  if i1 < i2 then (i1, i2) else (i2, i1)

/-- The mutable state of a Delaunay2d instance.  Fields that Python sets to
None are Option ... with none for None; fields that may not exist yet on the
instance (triangleEdges and boundaryVertices are only assigned at the end of
a non-degenerate __init__, and boundaryVertices is later re-assigned to None)
are doubly wrapped so that a missing attribute (AttributeError) is
distinguishable from an attribute holding None. -/
structure DState where
  points : List Point
  triangles : List (List Int)
  edge2Triangles : List (Edge × List Int)
  boundaryEdges : Option (List Edge)
  sorted_points : List Point
  triangleEdges : Option (List Edge)
  boundaryVertices : Option (Option (List Int))
  dualPoints : Option (List Point)
  dualEdges : Option (List Edge)
  deriving DecidableEq, Repr

/-- Delaunay2d.getArea(ip0, ip1, ip2) over a given current point list:
the parallelepiped area (d1[0]*d2[1] - d1[1]*d2[0]). -/
def getArea (pts : List Point) (ip0 ip1 ip2 : Int) : Except String Frac := do
  let p0 ← pyGet pts ip0
  let p1 ← pyGet pts ip1
  let p2 ← pyGet pts ip2
  pure (pcross (psub p1 p0) (psub p2 p0))

/-- Delaunay2d.isEdgeVisible(ip, edge): area < EPS. -/
def isEdgeVisible (pts : List Point) (ip : Int) (edge : Edge) :
    Except String Bool := do
  let area ← getArea pts ip edge.1 edge.2
  pure (decide (flt area EPS))

/-- Delaunay2d.makeCounterClockwise(ips): swap entries 1 and 2 when the signed
area is below -EPS (the source mutates the 3-element list in place; the model
returns the resulting list). -/
def makeCounterClockwise (pts : List Point) (ips : List Int) :
    Except String (List Int) := do
  let i0 ← pyGet ips 0
  let i1 ← pyGet ips 1
  let i2 ← pyGet ips 2
  let area ← getArea pts i0 i1 i2
  if flt area (fneg EPS) then
    pure ((ips.set 1 i2).set 2 i1)
  else
    pure ips

/-- The Delaunay test of flipOneEdge.  The source computes
angle_i = abs(atan2(cross_i, dot_i)) in [0, pi] and flips when
angle1 + angle2 > pi * (1 + EPS).  Over exact reals, for angles in [0, pi],
angle1 + angle2 > pi iff cos(angle1) < cos(pi - angle2) = -cos(angle2), i.e.
iff d1 * r2 + d2 * r1 < 0 with r_i = sqrt(c_i^2 + d_i^2); this is decided
rationally by sign analysis and squaring, which is this definition. -/
def flipNeeded (c1 d1 c2 d2 : Frac) : Bool :=
  let sq1 := fadd (fmul c1 c1) (fmul d1 d1)
  let sq2 := fadd (fmul c2 c2) (fmul d2 d2)
  if fle (fi 0) d1 then
    if fle (fi 0) d2 then false
    else decide (flt (fmul (fmul d1 d1) sq2) (fmul (fmul d2 d2) sq1))
  else
    if fle (fi 0) d2 then decide (flt (fmul (fmul d2 d2) sq1) (fmul (fmul d1 d1) sq2))
    else true

/-- The opposite-vertex scan of flipOneEdge: iOpposite starts at -1 and is
overwritten by each tri[i] (i = 0, 1, 2) that is not an endpoint of the edge,
so the last such vertex wins; reading tri[i] can raise IndexError. -/
def findOpposite (tri : List Int) (edge : Edge) : Except String Int := do
  let t0 ← pyGet tri 0
  let t1 ← pyGet tri 1
  let t2 ← pyGet tri 2
  let o0 : Int := -1
  let o1 := if t0 = edge.1 ∨ t0 = edge.2 then o0 else t0
  let o2 := if t1 = edge.1 ∨ t1 = edge.2 then o1 else t1
  pure (if t2 = edge.1 ∨ t2 = edge.2 then o2 else t2)

/-- Delaunay2d.flipOneEdge(edge): returns the updated state together with the
set of edges to iterate over at the next iteration.  The edge argument is
assumed sorted by the caller, as in the source. -/
def flipOneEdge (st : DState) (edge : Edge) :
    Except String (DState × List Edge) := do
  let tris := (dictLookup st.edge2Triangles edge).getD []
  if tris.length < 2 then
    pure (st, [])
  else
    match tris with
    | [iTri1, iTri2] => do
      let tri1 ← pyGet st.triangles iTri1
      let tri2 ← pyGet st.triangles iTri2
      let iOpposite1 ← findOpposite tri1 edge
      let iOpposite2 ← findOpposite tri2 edge
      let pe0 ← pyGet st.points edge.1
      let pe1 ← pyGet st.points edge.2
      let po1 ← pyGet st.points iOpposite1
      let po2 ← pyGet st.points iOpposite2
      let da1 := psub pe0 po1
      let db1 := psub pe1 po1
      let da2 := psub pe0 po2
      let db2 := psub pe1 po2
      let crossProd1 ← getArea st.points iOpposite1 edge.1 edge.2
      let crossProd2 ← getArea st.points iOpposite2 edge.2 edge.1
      let dotProd1 := pdot da1 db1
      let dotProd2 := pdot da2 db2
      if flipNeeded crossProd1 dotProd1 crossProd2 dotProd2 then
        let newTri1 := [iOpposite1, edge.1, iOpposite2]
        let newTri2 := [iOpposite1, iOpposite2, edge.2]
        let triangles1 ← pySet st.triangles iTri1 newTri1
        let triangles2 ← pySet triangles1 iTri2 newTri2
        let m0 := dictDelete st.edge2Triangles edge
        let eNew := makeKey iOpposite1 iOpposite2
        let m1 := dictUpsert m0 eNew [iTri1, iTri2]
        let eA := makeKey iOpposite1 edge.2
        match dictLookup m1 eA with
        | none => Except.error "KeyError"
        | some vA => do
          let m2 := dictUpsert m1 eA (vA.map (fun x => if x = iTri1 then iTri2 else x))
          let res1 := setAdd [] eA
          let eB := makeKey iOpposite2 edge.1
          match dictLookup m2 eB with
          | none => Except.error "KeyError"
          | some vB => do
            let m3 := dictUpsert m2 eB (vB.map (fun x => if x = iTri2 then iTri1 else x))
            let res2 := setAdd res1 eB
            let res3 := setAdd res2 (makeKey iOpposite1 edge.1)
            let res4 := setAdd res3 (makeKey iOpposite2 edge.2)
            pure ({ st with triangles := triangles2, edge2Triangles := m3 }, res4)
      else
        pure (st, [])
    | _ => Except.error "ValueError"

/-- One pass of Delaunay2d.flipEdges: flip every edge of the current work set
in order, accumulating the union of the returned candidate sets. -/
def flipPass (st : DState) (edges : List Edge) (acc : List Edge) :
    Except String (DState × List Edge) :=
  match edges with
  | [] => pure (st, acc)
  | e :: es => do
    let r ← flipOneEdge st e
    flipPass r.1 es (setUnion acc r.2)

/-- The while-loop of Delaunay2d.flipEdges, with fuel for the unbounded
iteration (the source has no iteration cap). -/
def flipLoop : Nat → DState → List Edge → Except String DState
  | 0, _, _ => Except.error "FuelExhausted"
  | fuel + 1, st, edgeSet => do
    let r ← flipPass st edgeSet []
    if r.2.isEmpty then pure r.1 else flipLoop fuel r.1 r.2

/-- Delaunay2d.flipEdges: start from all current edges and iterate until no
edge wants to flip. -/
def flipEdges (st : DState) (fuel : Nat) : Except String DState :=
  flipLoop fuel st (dictKeys st.edge2Triangles)

/-- The scan over boundary edges inside Delaunay2d.addPoint: for each visible
boundary edge create a new triangle, register its three edges in the edge map,
and collect the boundary edges to remove and to add.  The source collects the
removals and additions in sets and applies them after the loop; the loop never
mutates boundaryEdges itself. -/
def addPointScan (pts : List Point) (ip : Int) :
    List Edge → DState → List Edge → List Edge →
    Except String (DState × List Edge × List Edge)
  | [], st, toRemove, toAdd => pure (st, toRemove, toAdd)
  | edge :: rest, st, toRemove, toAdd => do
    let vis ← isEdgeVisible pts ip edge
    if vis then do
      let newTri0 := List.insertionSort (fun a b : Int => a ≤ b) [edge.1, edge.2, ip]
      let newTri ← makeCounterClockwise pts newTri0
      let triangles1 := st.triangles ++ [newTri]
      let e := sortedEdge edge
      let iTri : Int := (triangles1.length : Int) - 1
      match dictLookup st.edge2Triangles e with
      | none => Except.error "KeyError"
      | some v => do
        let m1 := dictUpsert st.edge2Triangles e (v ++ [iTri])
        let e1 := sortedEdge (ip, edge.1)
        let e2 := sortedEdge (edge.2, ip)
        let v1 := (dictLookup m1 e1).getD []
        let m2 := dictUpsert m1 e1 (v1 ++ [iTri])
        let v2 := (dictLookup m2 e2).getD []
        let m3 := dictUpsert m2 e2 (v2 ++ [iTri])
        let st1 := { st with triangles := triangles1, edge2Triangles := m3 }
        let toRemove1 := setAdd toRemove edge
        let toAdd1 := setAdd (setAdd toAdd (edge.1, ip)) (ip, edge.2)
        addPointScan pts ip rest st1 toRemove1 toAdd1
    else
      addPointScan pts ip rest st toRemove toAdd

/-- The boundary-set update at the end of addPoint: remove the edges that
gained a second triangle, then add each recorded edge only when its sorted
key still has exactly one incident triangle. -/
def updateBoundary (m : List (Edge × List Int)) :
    List Edge → List Edge → Except String (List Edge)
  | bes, [] => pure bes
  | bes, bedge :: rest => do
    match dictLookup m (sortedEdge bedge) with
    | none => Except.error "KeyError"
    | some v =>
      if v.length = 1 then
        updateBoundary m (setAdd bes bedge) rest
      else
        updateBoundary m bes rest

/-- Delaunay2d.addPoint(ip): connect the new point to every visible boundary
edge, update the boundary set, then run the edge-flip fixpoint.  The source
ends with: flipped = True; while flipped: flipped = self.flipEdges() -- and
flipEdges returns None, so the while body runs flipEdges exactly once. -/
def addPoint (st : DState) (ip : Int) (fuel : Nat) : Except String DState := do
  match st.boundaryEdges with
  | none => Except.error "TypeError"
  | some bes => do
    let r ← addPointScan st.points ip bes st [] []
    let st1 := r.1
    let toRemove := r.2.1
    let toAdd := r.2.2
    let besRemoved := toRemove.foldl (fun l e => l.erase e) bes
    let besFinal ← updateBoundary st1.edge2Triangles besRemoved toAdd
    let st2 := { st1 with boundaryEdges := some besFinal }
    flipEdges st2 fuel

/-- The addPoint loop of __init__: for i in range(3, len(self.points)). -/
def addPoints : DState → List Int → Nat → Except String DState
  | st, [], _ => pure st
  | st, ip :: rest, fuel => do
    let st1 ← addPoint st ip fuel
    addPoints st1 rest fuel

/-- Delaunay2d.otherEnd(e, v): e[1] when e[0] == v, else e[0]. -/
def otherEnd (e : List Int) (v : Int) : Except String Int := do
  let e0 ← pyGet e 0
  if e0 = v then pyGet e 1 else pure e0

/-- The while-loop of Delaunay2d.cycleVertices, with fuel: walk to the next
vertex until the walk returns to the start. -/
def cycleWalk (v2n : List (Int × List Int)) (start : Int) :
    Nat → Int → Int → List Int → Except String (List Int)
  | 0, _, _, _ => Except.error "FuelExhausted"
  | fuel + 1, previous, current, acc =>
    if current = start then pure acc
    else do
      let acc1 := acc ++ [current]
      match dictLookup v2n current with
      | none => Except.error "KeyError"
      | some nbrs => do
        let nxt ← otherEnd nbrs previous
        cycleWalk v2n start fuel current nxt acc1

/-- Delaunay2d.cycleVertices(vertex2Neighbors): list the cycle starting from
the first key of the map. -/
def cycleVertices (v2n : List (Int × List Int)) (fuel : Nat) :
    Except String (List Int) := do
  let start ← pyGet (dictKeys v2n) 0
  match dictLookup v2n start with
  | none => Except.error "KeyError"
  | some nbrs => do
    let current ← pyGet nbrs 0
    cycleWalk v2n start fuel start current [start]

/-- The vertex2Neighbors accumulation of computeBoundaryVertices: each
boundary edge appends each endpoint to the other endpoint's neighbor list. -/
def buildVertex2Neighbors : List Edge → List (Int × List Int) →
    List (Int × List Int)
  | [], m => m
  | edge :: rest, m =>
    let v := edge.1
    let w := edge.2
    let m1 := match dictLookup m v with
      | none => dictUpsert m v [w]
      | some l => dictUpsert m v (l ++ [w])
    let m2 := match dictLookup m1 w with
      | none => dictUpsert m1 w [v]
      | some l => dictUpsert m1 w (l ++ [v])
    buildVertex2Neighbors rest m2

/-- Delaunay2d.computeBoundaryVertices: the boundary vertices in cyclic
order, walked from the boundary-edge incidence map. -/
def computeBoundaryVertices (bes : List Edge) (fuel : Nat) :
    Except String (List Int) :=
  cycleVertices (buildVertex2Neighbors bes []) fuel

/-- The centroid computation of __init__: cg = (sum of points) / len(points)
(componentwise, over the caller-supplied list). -/
def centroidOf (pts : List Point) : Point :=
  let sx := (pts.map (fun p => p.1)).foldl fadd (fi 0)
  let sy := (pts.map (fun p => p.2)).foldl fadd (fi 0)
  (fdiv sx (fi pts.length), fdiv sy (fi pts.length))

/-- The key function distanceSquare(pt) of __init__: squared distance to the
center of gravity. -/
def distanceSquare (cg pt : Point) : Frac :=
  pdot (psub pt cg) (psub pt cg)

/-- The sort self.points.sort(key = distanceSquare) of __init__: a stable
ascending sort by squared distance to the centroid (CPython's list.sort is
stable; the model uses insertion sort, which is stable for this order). -/
def sortPoints (pts : List Point) : List Point :=
  List.insertionSort
    (fun p q => fle (distanceSquare (centroidOf pts) p) (distanceSquare (centroidOf pts) q)) pts

/-- The degenerate-prefix elimination loop of __init__:
while not stop and index + 2 < len(points): ... with index always 0 and
len(points) the length of the ORIGINAL constructor argument (not the shrinking
copy self.points), so when every leading triple is degenerate the loop keeps
deleting self.points[0] until self.points[2] raises IndexError. -/
def dropPoints (origN : Nat) : List Point → Except String (List Point)
  | p0 :: p1 :: p2 :: rest =>
    if 2 < origN then
      if flt (fabs (pcross (psub p1 p0) (psub p2 p0))) EPS then
        dropPoints origN (p1 :: p2 :: rest)
      else
        pure (p0 :: p1 :: p2 :: rest)
    else
      pure (p0 :: p1 :: p2 :: rest)
  | pts =>
    if 2 < origN then Except.error "IndexError" else pure pts

/-- The part of Delaunay2d.__init__ that runs after the degenerate-prefix
loop: seed with the first triangle, insert the remaining points, then record
the edge set and the boundary cycle.  When fewer than 3 points remain the
constructor returns early with no triangles and with
triangleEdges/boundaryVertices never assigned. -/
def delaunayBody (sorted pts : List Point) (fuel : Nat) : Except String DState := do
  if 0 ≤ (pts.length : Int) - 3 then do
    let tri ← makeCounterClockwise pts [0, 1, 2]
    let t0 ← pyGet tri 0
    let t1 ← pyGet tri 1
    let t2 ← pyGet tri 2
    let e01 := (t0, t1)
    let e12 := (t1, t2)
    let e20 := (t2, t0)
    let bes := setAdd (setAdd (setAdd [] e01) e12) e20
    let m0 := dictUpsert [] (makeKey e01.1 e01.2) [(0 : Int)]
    let m1 := dictUpsert m0 (makeKey e12.1 e12.2) [(0 : Int)]
    let m2 := dictUpsert m1 (makeKey e20.1 e20.2) [(0 : Int)]
    let st0 : DState :=
      { points := pts, triangles := [tri], edge2Triangles := m2,
        boundaryEdges := some bes, sorted_points := sorted,
        triangleEdges := none, boundaryVertices := none,
        dualPoints := none, dualEdges := none }
    let ips := ((List.range pts.length).drop 3).map (fun n => (n : Int))
    let st1 ← addPoints st0 ips fuel
    match st1.boundaryEdges with
    | none => Except.error "TypeError"
    | some bes1 => do
      let bv ← computeBoundaryVertices bes1 fuel
      pure { st1 with triangleEdges := some (dictKeys st1.edge2Triangles),
                      boundaryVertices := some (some bv) }
  else
    pure { points := pts, triangles := [], edge2Triangles := [],
           boundaryEdges := some [], sorted_points := sorted,
           triangleEdges := none, boundaryVertices := none,
           dualPoints := none, dualEdges := none }

/-- Delaunay2d.__init__(points): sort by distance to the centroid, drop a
degenerate prefix, then run the body. -/
def delaunayInit (points : List Point) (fuel : Nat) : Except String DState := do
  let sorted := sortPoints points
  let pts ← dropPoints points.length sorted
  delaunayBody sorted pts fuel

/-- The while-loop of Delaunay2d.triangulateInfiniteFace, with fuel.  The
queue holds the vertices of the current outer face; each iteration pops
(v, w1, w2) and either rotates v to the back (when edge (v, w2) is already a
triangle edge) or closes the ear (v, w1, w2), removing w1 from the face. -/
def tifLoop : Nat → DState → List Int → Except String (DState × List Int)
  | 0, _, _ => Except.error "FuelExhausted"
  | fuel + 1, st, q =>
    if 3 < q.length then
      match q with
      | v :: w1 :: w2 :: rest => do
        match st.triangleEdges with
        | none => Except.error "AttributeError"
        | some edges =>
          if (v, w2) ∈ edges ∨ (w2, v) ∈ edges then
            tifLoop fuel st (w1 :: w2 :: rest ++ [v])
          else do
            let newEdge := sortedEdge (v, w2)
            let newTriangle := List.insertionSort (fun a b : Int => a ≤ b) [v, w1, w2]
            let edges1 := setAdd edges newEdge
            let triangles1 := st.triangles ++ [newTriangle]
            let newTriangleIndex : Int := (triangles1.length : Int) - 1
            let m1 := dictUpsert st.edge2Triangles newEdge [newTriangleIndex]
            let firstOtherEdge := sortedEdge (v, w1)
            let secondOtherEdge := sortedEdge (w1, w2)
            match dictLookup m1 firstOtherEdge with
            | none => Except.error "KeyError"
            | some vf => do
              let m2 := dictUpsert m1 firstOtherEdge (vf ++ [newTriangleIndex])
              match dictLookup m2 secondOtherEdge with
              | none => Except.error "KeyError"
              | some vs => do
                let m3 := dictUpsert m2 secondOtherEdge (vs ++ [newTriangleIndex])
                let st1 := { st with triangles := triangles1, edge2Triangles := m3,
                                     triangleEdges := some edges1 }
                tifLoop fuel st1 (rest ++ [v, w2])
      | _ => Except.error "Unreachable"
    else
      pure (st, q)

/-- The closing step of triangulateInfiniteFace: append the remaining outer
triangle (in queue order, not sorted) and register its three edges. -/
def tifClose (st : DState) (q : List Int) : Except String DState := do
  let triangles1 := st.triangles ++ [q]
  let outerIndex : Int := (triangles1.length : Int) - 1
  let o0 ← pyGet q 0
  let o1 ← pyGet q 1
  let o2 ← pyGet q 2
  let e0 := sortedEdge (o0, o1)
  let e1 := sortedEdge (o1, o2)
  let e2 := sortedEdge (o2, o0)
  match dictLookup st.edge2Triangles e0 with
  | none => Except.error "KeyError"
  | some v0 => do
    let m1 := dictUpsert st.edge2Triangles e0 (v0 ++ [outerIndex])
    match dictLookup m1 e1 with
    | none => Except.error "KeyError"
    | some v1 => do
      let m2 := dictUpsert m1 e1 (v1 ++ [outerIndex])
      match dictLookup m2 e2 with
      | none => Except.error "KeyError"
      | some v2 => do
        let m3 := dictUpsert m2 e2 (v2 ++ [outerIndex])
        pure { st with triangles := triangles1, edge2Triangles := m3,
                       boundaryEdges := none, boundaryVertices := some none }

/-- Delaunay2d.triangulateInfiniteFace: close the unbounded face.  Reading
self.boundaryVertices fails when the attribute was never assigned
(AttributeError, degenerate constructor) or holds None (TypeError, already
closed). -/
def triangulateInfiniteFace (st : DState) (fuel : Nat) : Except String DState := do
  match st.boundaryVertices with
  | none => Except.error "AttributeError"
  | some none => Except.error "TypeError"
  | some (some bv) => do
    let r ← tifLoop fuel st bv
    tifClose r.1 r.2

/-- The dual-point accumulation of computeDual: the centroid of each
triangle, via self.sorted_points. -/
def computeDualPoints (sortedPts : List Point) :
    List (List Int) → List Point → Except String (List Point)
  | [], acc => pure acc
  | tri :: rest, acc => do
    let t0 ← pyGet tri 0
    let t1 ← pyGet tri 1
    let t2 ← pyGet tri 2
    let p0 ← pyGet sortedPts t0
    let p1 ← pyGet sortedPts t1
    let p2 ← pyGet sortedPts t2
    let avgX := fdiv (fadd (fadd p0.1 p1.1) p2.1) (fi 3)
    let avgY := fdiv (fadd (fadd p0.2 p1.2) p2.2) (fi 3)
    computeDualPoints sortedPts rest (acc ++ [(avgX, avgY)])

/-- The dual-edge accumulation of computeDual: edges with two incident
triangles connect their dual points (sorted pair); otherwise the edge is
joined to the infinite-face dual point, whose index is only defined when the
boundary was still uncovered (otherwise Python raises NameError). -/
def computeDualEdges (m : List (Edge × List Int)) (infIdx : Option Int) :
    List Edge → List Edge → Except String (List Edge)
  | [], acc => pure acc
  | edge :: rest, acc => do
    match dictLookup m edge with
    | none => Except.error "KeyError"
    | some tris =>
      if tris.length = 2 then do
        let a ← pyGet tris 0
        let b ← pyGet tris 1
        computeDualEdges m infIdx rest (setAdd acc (sortedEdge (a, b)))
      else do
        let a ← pyGet tris 0
        match infIdx with
        | none => Except.error "NameError"
        | some k => computeDualEdges m infIdx rest (setAdd acc (a, k))

/-- Delaunay2d.computeDual: one dual point per triangle (its centroid), plus
the centroid of all points when the boundary is still uncovered (tested by
Python truthiness of self.boundaryVertices); one dual edge per primal edge,
collected into a set. -/
def computeDual (st : DState) : Except String DState := do
  let dps ← computeDualPoints st.sorted_points st.triangles []
  let truthy ← match st.boundaryVertices with
    | none => Except.error "AttributeError"
    | some none => pure false
    | some (some l) => pure (decide (l ≠ []))
  let dps2 := if truthy then dps ++ [centroidOf st.sorted_points] else dps
  let infIdx : Option Int := if truthy then some ((dps2.length : Int) - 1) else none
  match st.triangleEdges with
  | none => Except.error "AttributeError"
  | some edges => do
    let de ← computeDualEdges st.edge2Triangles infIdx edges []
    pure { st with dualPoints := some dps2, dualEdges := some de }

/-! Basic lemmas about the Python dict and set model. -/

theorem dictLookup_upsert {κ ν : Type} [DecidableEq κ] (m : List (κ × ν))
    (k : κ) (v : ν) (q : κ) :
    dictLookup (dictUpsert m k v) q = if k = q then some v else dictLookup m q := by
  induction m with
  | nil =>
    by_cases h : k = q <;> simp [dictUpsert, dictLookup, h]
  | cons b rest ih =>
    obtain ⟨a, w⟩ := b
    by_cases hak : a = k
    · subst hak
      by_cases haq : a = q <;> simp [dictUpsert, dictLookup, haq]
    · by_cases haq : a = q
      · subst haq
        have hkq : ¬ k = a := fun h => hak h.symm
        simp [dictUpsert, dictLookup, hak, hkq]
      · simp [dictUpsert, dictLookup, hak, haq, ih]

theorem dictLookup_delete {κ ν : Type} [DecidableEq κ] (m : List (κ × ν))
    (k : κ) (q : κ) :
    dictLookup (dictDelete m k) q = if q = k then none else dictLookup m q := by
  induction m with
  | nil => by_cases h : q = k <;> simp [dictDelete, dictLookup, h]
  | cons b rest ih =>
    obtain ⟨a, w⟩ := b
    by_cases hak : a = k
    · by_cases hqk : q = k
      · simp only [dictDelete, dictLookup, hak, hqk, if_pos rfl] at ih ⊢
        simpa using ih
      · have h2 : ¬ a = q := fun h => hqk (h.symm.trans hak)
        have h3 : ¬ k = q := fun h => hqk h.symm
        simp [dictDelete, dictLookup, hak, hqk, h2, h3, ih]
    · by_cases haq : a = q
      · have hqk : ¬ q = k := fun h => hak (haq.trans h)
        simp [dictDelete, dictLookup, hak, haq, hqk]
      · simp [dictDelete, dictLookup, hak, haq, ih]

/-! Claim C1: collinear input. -/

/-- Decidable equality on Except, for evaluating the model on concrete
inputs. -/
instance exceptDecidableEq {ε α : Type} [DecidableEq ε] [DecidableEq α] :
    DecidableEq (Except ε α) := fun x y =>
  match x, y with
  | Except.error e, Except.error f =>
    if h : e = f then isTrue (congrArg Except.error h)
    else isFalse (fun hc => h (by injection hc))
  | Except.error _, Except.ok _ => isFalse (fun hc => Except.noConfusion hc)
  | Except.ok _, Except.error _ => isFalse (fun hc => Except.noConfusion hc)
  | Except.ok a, Except.ok b =>
    if h : a = b then isTrue (congrArg Except.ok h)
    else isFalse (fun hc => h (by injection hc))

/-- Five points on a line, the concrete scenario named by the specification. -/
def collinearFive : List Point :=
  [(fi 0, fi 0), (fi 1, fi 0), (fi 2, fi 0), (fi 3, fi 0), (fi 4, fi 0)]

/-- Claim C1 (code side): constructing the triangulation on 5 collinear points
does NOT terminate normally with an empty triangle list; the degenerate-prefix
loop of __init__ compares its index against the length of the original
argument (len(points)) instead of the shrinking working copy (self.points),
keeps deleting the head, and crashes with IndexError reading self.points[2].
The "all the points fall on a line" early return is unreachable for 3 or more
collinear points; it is only reached for inputs of fewer than 3 points. -/
theorem c1_collinear_five_raises_IndexError :
    delaunayInit collinearFive 1000 = Except.error "IndexError" := by
  decide

/-! Claim C4: dual cardinalities. -/

/-- Each triangle contributes exactly one dual point. -/
theorem computeDualPoints_length (sp : List Point) :
    ∀ (tris : List (List Int)) (acc out : List Point),
      computeDualPoints sp tris acc = Except.ok out →
      out.length = acc.length + tris.length := by
  intro tris
  induction tris with
  | nil =>
    intro acc out h
    simp only [computeDualPoints, pure] at h
    cases h
    simp
  | cons tri rest ih =>
    intro acc out h
    simp only [computeDualPoints, bind, Except.bind] at h
    split at h
    · cases h
    · split at h
      · cases h
      · split at h
        · cases h
        · split at h
          · cases h
          · split at h
            · cases h
            · split at h
              · cases h
              · have := ih _ _ h
                simp only [List.length_append, List.length_cons, List.length_nil] at this ⊢
                omega

/-- Each primal edge contributes at most one dual edge (dualEdges is a set). -/
theorem computeDualEdges_length (m : List (Edge × List Int)) (infIdx : Option Int) :
    ∀ (E : List Edge) (acc out : List Edge),
      computeDualEdges m infIdx E acc = Except.ok out →
      out.length ≤ acc.length + E.length := by
  intro E
  induction E with
  | nil =>
    intro acc out h
    simp only [computeDualEdges, pure] at h
    cases h
    simp
  | cons e rest ih =>
    intro acc out h
    simp only [computeDualEdges, bind, Except.bind] at h
    have hsetAdd : ∀ (l : List Edge) (x : Edge), (setAdd l x).length ≤ l.length + 1 := by
      intro l x
      by_cases hx : x ∈ l <;> simp [setAdd, hx]
    split at h
    · cases h
    · split at h
      · split at h
        · cases h
        · split at h
          · cases h
          · have := ih _ _ h
            simp only [List.length_cons]
            exact le_trans this
              (le_trans (Nat.add_le_add_right (hsetAdd _ _) _) (by omega))
      · split at h
        · cases h
        · split at h
          · cases h
          · have := ih _ _ h
            simp only [List.length_cons]
            exact le_trans this
              (le_trans (Nat.add_le_add_right (hsetAdd _ _) _) (by omega))

/-- Claim C4 (counterexample): on the 3-point input (0,0), (1,0), (0,1) all
three primal edges are boundary edges of the single triangle, so all three
dual edges coincide as (0, infinite-face) and the dual edge SET has 1 element
while there are 3 primal edges: |dualEdges| differs from |primal edges|. -/
theorem c4_counterexample_three_points :
    ¬ ((delaunayInit [(fi 0, fi 0), (fi 1, fi 0), (fi 0, fi 1)] 100 >>= computeDual).toOption.map
          (fun st => st.dualEdges.map List.length)
        = (delaunayInit [(fi 0, fi 0), (fi 1, fi 0), (fi 0, fi 1)] 100 >>= computeDual).toOption.map
          (fun st => st.triangleEdges.map List.length)) := by
  decide

/-- Claim C4 (amended): after a successful computeDual, the number of dual
points equals the number of triangles plus 1 exactly when the boundary is
still uncovered (self.boundaryVertices is truthy), and the number of dual
edges is at most the number of primal edges -- equality can fail because
dualEdges is a set and distinct primal edges can produce the same dual pair. -/
theorem c4_dual_cardinalities (st st' : DState)
    (h : computeDual st = Except.ok st') :
    (∃ dps, st'.dualPoints = some dps ∧
        dps.length = st.triangles.length +
          (match st.boundaryVertices with
           | some (some l) => if l = [] then 0 else 1
           | _ => 0)) ∧
    (∃ de E, st'.dualEdges = some de ∧ st.triangleEdges = some E ∧
        de.length ≤ E.length) := by
  simp only [computeDual, bind, Except.bind, pure, Except.pure] at h
  split at h
  · cases h
  next dps hdps =>
    have hdpsLen := computeDualPoints_length _ _ _ _ hdps
    simp only [List.length_nil, Nat.zero_add] at hdpsLen
    split at h
    · cases h
    next heq =>
      split at h
      · cases h
      next E heqE =>
        split at h
        · cases h
        next de hde =>
          have hdeLen := computeDualEdges_length _ _ _ _ _ hde
          simp only [List.length_nil, Nat.zero_add] at hdeLen
          cases h
          refine ⟨⟨dps, ?_, ?_⟩, ⟨de, E, ?_, ?_, hdeLen⟩⟩ <;> simp [heq, heqE, hdpsLen]
    next bv heq =>
      split at h
      · cases h
      next E heqE =>
        split at h
        · cases h
        next de hde =>
          have hdeLen := computeDualEdges_length _ _ _ _ _ hde
          simp only [List.length_nil, Nat.zero_add] at hdeLen
          cases h
          by_cases hnil : bv = []
          · refine ⟨⟨dps, ?_, ?_⟩, ⟨de, E, ?_, ?_, hdeLen⟩⟩ <;>
              simp [heq, heqE, hdpsLen, hnil]
          · refine ⟨⟨dps ++ [centroidOf st.sorted_points], ?_, ?_⟩,
              ⟨de, E, ?_, ?_, hdeLen⟩⟩ <;>
              simp [heq, heqE, hdpsLen, hnil]

/-- The state built by the constructor on the 3 points (0,0), (1,0), (0,1):
one triangle, three boundary edges. -/
def dualDemoState : DState :=
  { points := [(fi 0, fi 0), (fi 1, fi 0), (fi 0, fi 1)],
    triangles := [[0, 1, 2]],
    edge2Triangles := [((0, 1), [0]), ((1, 2), [0]), ((0, 2), [0])],
    boundaryEdges := some [(0, 1), (1, 2), (2, 0)],
    sorted_points := [(fi 0, fi 0), (fi 1, fi 0), (fi 0, fi 1)],
    triangleEdges := some [(0, 1), (1, 2), (0, 2)],
    boundaryVertices := some (some [0, 1, 2]),
    dualPoints := none,
    dualEdges := none }

/-- The result of computeDual on dualDemoState. -/
def dualDemoResult : DState :=
  { dualDemoState with
    dualPoints := some [(fr 1 3, fr 1 3), (fr 1 3, fr 1 3)],
    dualEdges := some [(0, 1)] }

/-- Witness for c4_dual_cardinalities at a concrete successful computeDual. -/
theorem c4_dual_cardinalities_witness :
    (∃ dps, dualDemoResult.dualPoints = some dps ∧
        dps.length = dualDemoState.triangles.length +
          (match dualDemoState.boundaryVertices with
           | some (some l) => if l = [] then 0 else 1
           | _ => 0)) ∧
    (∃ de E, dualDemoResult.dualEdges = some de ∧
        dualDemoState.triangleEdges = some E ∧ de.length ≤ E.length) :=
  c4_dual_cardinalities dualDemoState dualDemoResult (by decide)

/-! Claim C8: flipOneEdge frame effects. -/

/-- A Python list assignment l[i] = x never changes the length of the list. -/
theorem pySet_length {α : Type} (l : List α) (i : Int) (x : α) (l' : List α)
    (h : pySet l i x = Except.ok l') : l'.length = l.length := by
  unfold pySet at h
  split at h
  · cases h
    simp
  · cases h

/-- Claim C8: a successful flipOneEdge never changes the length of the
triangle list (a flip overwrites the two incident slots in place), and when
the edge has fewer than 2 incident triangles it changes nothing at all and
returns no candidate edges. -/
theorem c8_flipOneEdge_frame (st : DState) (edge : Edge) (st' : DState)
    (res : List Edge) (h : flipOneEdge st edge = Except.ok (st', res)) :
    st'.triangles.length = st.triangles.length ∧
    (((dictLookup st.edge2Triangles edge).getD []).length < 2 →
      st' = st ∧ res = []) := by
  simp only [flipOneEdge, bind, Except.bind, pure, Except.pure] at h
  split at h
  · cases h
    exact ⟨rfl, fun _ => ⟨rfl, rfl⟩⟩
  next hlen =>
    split at h
    next iTri1 iTri2 =>
      split at h
      · cases h
      split at h
      · cases h
      split at h
      · cases h
      split at h
      · cases h
      split at h
      · cases h
      split at h
      · cases h
      split at h
      · cases h
      split at h
      · cases h
      split at h
      · cases h
      split at h
      · cases h
      split at h
      · -- the flip branch
        split at h
        · cases h
        next triangles1 hset1 =>
          split at h
          · cases h
          next triangles2 hset2 =>
            split at h
            · cases h
            next vA hvA =>
              split at h
              · cases h
              next vB hvB =>
                cases h
                refine ⟨?_, fun hlt => absurd hlt hlen⟩
                rw [pySet_length _ _ _ _ hset2, pySet_length _ _ _ _ hset1]
      · -- no flip needed
        cases h
        exact ⟨rfl, fun hlt => absurd hlt hlen⟩
    next hne =>
      cases h

/-- A state holding two triangles (0,1,2) and (0,1,3) sharing the edge (0,1)
of a thin quadrilateral whose opposite angles at 2 = (0, 1/2) and
3 = (0, -1/2) are both obtuse, so the Delaunay test demands a flip. -/
def quadState : DState :=
  { points := [(fi (-1), fi 0), (fi 1, fi 0), (fr 0 1, fr 1 2), (fr 0 1, fr (-1) 2)],
    triangles := [[0, 1, 2], [0, 1, 3]],
    edge2Triangles := [((0, 1), [0, 1]), ((0, 2), [0]), ((1, 2), [0]),
                       ((0, 3), [1]), ((1, 3), [1])],
    boundaryEdges := some [(0, 2), (2, 1), (1, 3), (3, 0)],
    sorted_points := [(fi (-1), fi 0), (fi 1, fi 0), (fr 0 1, fr 1 2), (fr 0 1, fr (-1) 2)],
    triangleEdges := none, boundaryVertices := none,
    dualPoints := none, dualEdges := none }

/-- The state after flipOneEdge flips the edge (0,1) of quadState: the two
triangle slots are overwritten in place with the flipped triangles. -/
def quadStateFlipped : DState :=
  { quadState with
    triangles := [[2, 0, 3], [2, 3, 1]],
    edge2Triangles := [((0, 2), [0]), ((1, 2), [1]), ((0, 3), [0]),
                       ((1, 3), [1]), ((2, 3), [0, 1])] }

/-- Witness for c8_flipOneEdge_frame at a concrete successful flip. -/
theorem c8_flipOneEdge_frame_witness :
    quadStateFlipped.triangles.length = quadState.triangles.length ∧
    (((dictLookup quadState.edge2Triangles ((0 : Int), (1 : Int))).getD []).length < 2 →
      quadStateFlipped = quadState ∧
      ([(1, 2), (0, 3), (0, 2), (1, 3)] : List Edge) = []) :=
  c8_flipOneEdge_frame quadState (0, 1) quadStateFlipped
    [(1, 2), (0, 3), (0, 2), (1, 3)] (by decide)

/-! Claim C2: the candidate edges returned by a flip. -/

/-- Membership in a Python set after add. -/
theorem mem_setAdd {α : Type} [DecidableEq α] (s : List α) (x y : α) :
    y ∈ setAdd s x ↔ y ∈ s ∨ y = x := by
  by_cases hx : x ∈ s
  · simp only [setAdd, if_pos hx]
    constructor
    · exact fun h => Or.inl h
    · rintro (h | rfl)
      · exact h
      · exact hx
  · simp [setAdd, if_neg hx]

/-- makeKey is determined by the unordered pair of its arguments. -/
theorem makeKey_eq_iff (a b c d : Int) (h : makeKey a b = makeKey c d) :
    (a = c ∧ b = d) ∨ (a = d ∧ b = c) := by
  unfold makeKey at h
  split at h <;> split at h <;>
    simp only [Prod.mk.injEq] at h <;> omega

/-- Claim C2 (counterexample): flipping the edge (0,1) of quadState (opposite
vertices o1 = 2, o2 = 3) returns 4 candidate edges and the new diagonal (2,3)
is NOT among them, so the returned set is not the diagonal plus two outer
edges. -/
theorem c2_counterexample_diagonal_not_returned :
    (flipOneEdge quadState (0, 1)).toOption.map
        (fun r => (decide (((2 : Int), (3 : Int)) ∈ r.2), r.2.length))
      = some (false, 4) := by
  decide

set_option maxHeartbeats 1600000 in
/-- Claim C2 (amended): when flipOneEdge performs a flip (it returns a
nonempty candidate set), the candidates are exactly the FOUR outer edges of
the quadrilateral spanned by the flipped edge and the two opposite vertices
o1, o2 found in the incident triangles; the new diagonal (o1,o2) is not
among them as long as the quadrilateral is nondegenerate. -/
theorem c2_flip_candidates (st : DState) (edge : Edge) (st' : DState)
    (res : List Edge) (h : flipOneEdge st edge = Except.ok (st', res))
    (hres : res ≠ []) :
    ∃ iTri1 iTri2 tri1 tri2 o1 o2,
      (dictLookup st.edge2Triangles edge).getD [] = [iTri1, iTri2] ∧
      pyGet st.triangles iTri1 = Except.ok tri1 ∧
      pyGet st.triangles iTri2 = Except.ok tri2 ∧
      findOpposite tri1 edge = Except.ok o1 ∧
      findOpposite tri2 edge = Except.ok o2 ∧
      (∀ x, x ∈ res ↔ (x = makeKey o1 edge.2 ∨ x = makeKey o2 edge.1 ∨
                       x = makeKey o1 edge.1 ∨ x = makeKey o2 edge.2)) ∧
      (o1 ≠ o2 → o1 ≠ edge.1 → o1 ≠ edge.2 → o2 ≠ edge.1 → o2 ≠ edge.2 →
        makeKey o1 o2 ∉ res) := by
  simp only [flipOneEdge, bind, Except.bind, pure, Except.pure] at h
  split at h
  · cases h
    exact absurd rfl hres
  next hlen =>
    split at h
    next iTri1 iTri2 htris =>
        split at h
        · cases h
        next tri1 htri1 =>
          split at h
          · cases h
          next tri2 htri2 =>
            split at h
            · cases h
            next o1 ho1 =>
              split at h
              · cases h
              next o2 ho2 =>
                split at h
                · cases h
                split at h
                · cases h
                split at h
                · cases h
                split at h
                · cases h
                split at h
                · cases h
                split at h
                · cases h
                split at h
                · -- flip branch
                  split at h
                  · cases h
                  split at h
                  · cases h
                  split at h
                  · cases h
                  split at h
                  · cases h
                  cases h
                  refine ⟨iTri1, iTri2, tri1, tri2, o1, o2,
                    htris, htri1, htri2, ho1, ho2, ?_, ?_⟩
                  · intro x
                    simp only [mem_setAdd, List.not_mem_nil, false_or, or_assoc]
                  · intro h12 h1a h1b h2a h2b hmem
                    simp only [mem_setAdd, List.not_mem_nil, false_or, or_assoc] at hmem
                    rcases hmem with hk | hk | hk | hk <;>
                      rcases makeKey_eq_iff _ _ _ _ hk with ⟨ha, hb⟩ | ⟨ha, hb⟩ <;>
                        omega
                · -- no flip: res = [] contradicts hres
                  cases h
                  exact absurd rfl hres
    next hne =>
      cases h

/-- Witness for c2_flip_candidates at the concrete quadState flip. -/
theorem c2_flip_candidates_witness :
    ∃ iTri1 iTri2 tri1 tri2 o1 o2,
      (dictLookup quadState.edge2Triangles ((0 : Int), (1 : Int))).getD []
          = [iTri1, iTri2] ∧
      pyGet quadState.triangles iTri1 = Except.ok tri1 ∧
      pyGet quadState.triangles iTri2 = Except.ok tri2 ∧
      findOpposite tri1 (0, 1) = Except.ok o1 ∧
      findOpposite tri2 (0, 1) = Except.ok o2 ∧
      (∀ x, x ∈ ([(1, 2), (0, 3), (0, 2), (1, 3)] : List Edge) ↔
          (x = makeKey o1 1 ∨ x = makeKey o2 0 ∨ x = makeKey o1 0 ∨ x = makeKey o2 1)) ∧
      (o1 ≠ o2 → o1 ≠ 0 → o1 ≠ 1 → o2 ≠ 0 → o2 ≠ 1 →
          makeKey o1 o2 ∉ ([(1, 2), (0, 3), (0, 2), (1, 3)] : List Edge)) :=
  c2_flip_candidates quadState (0, 1) quadStateFlipped
    [(1, 2), (0, 3), (0, 2), (1, 3)] (by decide) (by decide)

/-! Claim C6: the point preprocessing order. -/

/-- The key denominator produced by fkey is always positive. -/
theorem fkey_den_pos (x : Frac) : 0 < (fkey x).2 := by
  unfold fkey
  split
  · simp
  next h =>
    simpa using mul_self_pos.mpr h

/-- fle is total. -/
theorem fle_total (x y : Frac) : fle x y ∨ fle y x := by
  unfold fle
  exact Int.le_total _ _

/-- fle is transitive (the fkey denominators are positive). -/
theorem fle_trans {x y z : Frac} (h1 : fle x y) (h2 : fle y z) : fle x z := by
  unfold fle at h1 h2 ⊢
  have hy := fkey_den_pos y
  have hz := fkey_den_pos z
  have hx := fkey_den_pos x
  nlinarith [mul_le_mul_of_nonneg_right h1 (le_of_lt hz),
             mul_le_mul_of_nonneg_right h2 (le_of_lt hx)]

/-- Value equality implies the non-strict order. -/
theorem fle_of_feq {x y : Frac} (h : feq x y) : fle x y := le_of_eq h

/-- Value equality is symmetric. -/
theorem feq_symm {x y : Frac} (h : feq x y) : feq y x := by
  unfold feq at h ⊢
  omega

/-- Value equality is transitive (the fkey denominators are positive). -/
theorem feq_trans {x y z : Frac} (h1 : feq x y) (h2 : feq y z) : feq x z := by
  unfold feq at h1 h2 ⊢
  have hy := fkey_den_pos y
  have h3 : (fkey x).1 * (fkey z).2 * (fkey y).2
      = (fkey z).1 * (fkey x).2 * (fkey y).2 := by
    linear_combination (fkey z).2 * h1 + (fkey x).2 * h2
  exact mul_right_cancel₀ (ne_of_gt hy) h3

/-- Stability of a single ordered insertion: when every element satisfying p
is below (in r) the inserted element whenever the inserted element satisfies
p, the p-filter of the insertion is the p-filter with the element in front. -/
theorem filter_orderedInsert {α : Type} (r : α → α → Prop) [DecidableRel r]
    (p : α → Bool) (a : α) :
    ∀ l : List α, (∀ y, p y = true → p a = true → r a y) →
      (List.orderedInsert r a l).filter p
        = if p a then a :: l.filter p else l.filter p := by
  intro l
  induction l with
  | nil =>
    intro hp
    by_cases ha : p a <;> simp [List.orderedInsert, ha]
  | cons b l ih =>
    intro hp
    by_cases hab : r a b
    · simp only [List.orderedInsert, if_pos hab]
      by_cases ha : p a <;> simp [ha, List.filter_cons]
    · simp only [List.orderedInsert, if_neg hab]
      rw [List.filter_cons, List.filter_cons, ih hp]
      by_cases ha : p a
      · have hb : ¬ p b = true := fun hb => hab (hp b hb ha)
        simp [ha, hb]
      · simp [ha]

/-- Stability of insertion sort: when all elements satisfying p are mutually
related by r, sorting does not change the p-filter (their relative order). -/
theorem filter_insertionSort {α : Type} (r : α → α → Prop) [DecidableRel r]
    (p : α → Bool) (hp : ∀ x y, p x = true → p y = true → r x y) :
    ∀ l : List α, (List.insertionSort r l).filter p = l.filter p := by
  intro l
  induction l with
  | nil => rfl
  | cons a l ih =>
    simp only [List.insertionSort]
    rw [filter_orderedInsert r p a _ (fun y hy ha => hp a y ha hy)]
    rw [List.filter_cons, ih]

/-- Claim C6: the working point sequence (self.points right after the sort,
kept as sorted_points) is a permutation of the input, sorted in ascending
order of squared distance from the centroid of all input points, and the sort
is stable: points with equal keys keep their original relative order (their
filter by any key value is unchanged). -/
theorem c6_sorted_point_order (pts : List Point) :
    (sortPoints pts).Perm pts ∧
    (sortPoints pts).Sorted (fun p q =>
        fle (distanceSquare (centroidOf pts) p) (distanceSquare (centroidOf pts) q)) ∧
    (∀ c : Frac,
        (sortPoints pts).filter
            (fun p => decide (feq (distanceSquare (centroidOf pts) p) c))
          = pts.filter
            (fun p => decide (feq (distanceSquare (centroidOf pts) p) c))) := by
  refine ⟨List.perm_insertionSort _ pts, ?_, ?_⟩
  · haveI : IsTotal Point (fun p q =>
        fle (distanceSquare (centroidOf pts) p) (distanceSquare (centroidOf pts) q)) :=
      ⟨fun p q => fle_total _ _⟩
    haveI : IsTrans Point (fun p q =>
        fle (distanceSquare (centroidOf pts) p) (distanceSquare (centroidOf pts) q)) :=
      ⟨fun _ _ _ h1 h2 => fle_trans h1 h2⟩
    exact List.sorted_insertionSort _ pts
  · intro c
    apply filter_insertionSort
    intro x y hx hy
    simp only [decide_eq_true_eq] at hx hy
    exact fle_of_feq (feq_trans hx (feq_symm hy))

/-! Claim C7: the edge-incidence invariant. -/

/-- A successful flipOneEdge on edge e certifies that e had at most 2
incident triangles: with 3 or more the tuple unpacking
"iTri1, iTri2 = tris" raises ValueError. -/
theorem flipOneEdge_ok_visited_le2 (st : DState) (e : Edge) (r : DState × List Edge)
    (h : flipOneEdge st e = Except.ok r) :
    ∀ v, dictLookup st.edge2Triangles e = some v → v.length ≤ 2 := by
  intro v hv
  simp only [flipOneEdge, bind, Except.bind, pure, Except.pure, hv] at h
  split at h
  next hlt => simpa using le_of_lt (Nat.lt_of_lt_of_le hlt (by omega))
  next hge =>
    split at h
    next => simp_all
    next hne => cases h

/-- Value tracking through a successful flipOneEdge: every edge of the
resulting map either holds exactly 2 triangles (the new diagonal, or an
overwritten entry) or holds a list exactly as long as the list the same edge
held before (untouched entries, and the two relabelled outer edges). -/
theorem flipOneEdge_lookup_track (st : DState) (e : Edge) (st1 : DState)
    (res : List Edge) (h : flipOneEdge st e = Except.ok (st1, res)) :
    ∀ k v1, dictLookup st1.edge2Triangles k = some v1 →
      v1.length = 2 ∨
      ∃ v0, dictLookup st.edge2Triangles k = some v0 ∧ v1.length = v0.length := by
  simp only [flipOneEdge, bind, Except.bind, pure, Except.pure] at h
  split at h
  · cases h
    exact fun k v1 hk => Or.inr ⟨v1, hk, rfl⟩
  next hlen =>
    split at h
    next iTri1 iTri2 htris =>
      split at h
      · cases h
      split at h
      · cases h
      split at h
      · cases h
      split at h
      · cases h
      split at h
      · cases h
      split at h
      · cases h
      split at h
      · cases h
      split at h
      · cases h
      split at h
      · cases h
      split at h
      · cases h
      split at h
      · -- flip branch
        split at h
        · cases h
        split at h
        · cases h
        split at h
        · cases h
        next vA hvA =>
          split at h
          · cases h
          next vB hvB =>
            cases h
            intro k v1 hk
            simp only [dictLookup_upsert] at hk
            split at hk
            next heqB =>
              -- k is the second relabelled outer edge
              cases hk
              subst heqB
              simp only [List.length_map]
              rw [dictLookup_upsert] at hvB
              split at hvB
              next heqA =>
                -- that edge was the first relabelled outer edge
                cases hvB
                rw [← heqA]
                simp only [List.length_map]
                rw [dictLookup_upsert] at hvA
                split at hvA
                next heqN =>
                  cases hvA
                  exact Or.inl rfl
                next =>
                  rw [dictLookup_delete] at hvA
                  split at hvA
                  · cases hvA
                  · exact Or.inr ⟨vA, hvA, rfl⟩
              next =>
                rw [dictLookup_upsert] at hvB
                split at hvB
                next heqN =>
                  cases hvB
                  exact Or.inl rfl
                next =>
                  rw [dictLookup_delete] at hvB
                  split at hvB
                  · cases hvB
                  · exact Or.inr ⟨vB, hvB, rfl⟩
            next =>
              split at hk
              next heqA =>
                -- k is the first relabelled outer edge
                cases hk
                subst heqA
                simp only [List.length_map]
                rw [dictLookup_upsert] at hvA
                split at hvA
                next heqN =>
                  cases hvA
                  exact Or.inl rfl
                next =>
                  rw [dictLookup_delete] at hvA
                  split at hvA
                  · cases hvA
                  · exact Or.inr ⟨vA, hvA, rfl⟩
              next =>
                split at hk
                next heqN =>
                  -- k is the new diagonal
                  cases hk
                  exact Or.inl rfl
                next =>
                  rw [dictLookup_delete] at hk
                  split at hk
                  · cases hk
                  · exact Or.inr ⟨v1, hk, rfl⟩
      · -- no flip
        cases h
        exact fun k v1 hk => Or.inr ⟨v1, hk, rfl⟩
    next hne =>
      cases h

/-- After a successful flip pass over a work list containing every edge whose
entry is not yet known to have at most 2 triangles, every entry of the
resulting map has at most 2 triangles: visiting an edge with 3 or more raises
ValueError, and no flip ever lengthens an entry. -/
theorem flipPass_all_le2 :
    ∀ (L : List Edge) (st : DState) (acc : List Edge) (st2 : DState)
      (res2 : List Edge),
      flipPass st L acc = Except.ok (st2, res2) →
      (∀ k v, dictLookup st.edge2Triangles k = some v →
        v.length ≤ 2 ∨ k ∈ L) →
      (∀ k v, dictLookup st2.edge2Triangles k = some v → v.length ≤ 2) := by
  intro L
  induction L with
  | nil =>
    intro st acc st2 res2 h hpre
    simp only [flipPass, pure, Except.pure] at h
    cases h
    intro k v hk
    rcases hpre k v hk with h2 | h2
    · exact h2
    · cases h2
  | cons e es ih =>
    intro st acc st2 res2 h hpre
    simp only [flipPass, bind, Except.bind] at h
    split at h
    · cases h
    next r hr =>
      obtain ⟨st1, res1⟩ := r
      refine ih st1 _ st2 res2 h ?_
      intro k v1 hk
      rcases flipOneEdge_lookup_track st e st1 res1 hr k v1 hk with h2 | ⟨v0, hv0, hlen⟩
      · exact Or.inl (le_of_eq h2)
      · rcases hpre k v0 hv0 with h3 | h3
        · exact Or.inl (hlen ▸ h3)
        · rcases List.mem_cons.mp h3 with rfl | h4
          · exact Or.inl (hlen ▸ flipOneEdge_ok_visited_le2 st k _ hr v0 hv0)
          · exact Or.inr h4
    
/-- The flip fixpoint driver keeps every entry at 2 or below once the first
pass (which visits every key) has succeeded. -/
theorem flipLoop_all_le2 :
    ∀ (fuel : Nat) (st : DState) (L : List Edge) (stF : DState),
      flipLoop fuel st L = Except.ok stF →
      (∀ k v, dictLookup st.edge2Triangles k = some v →
        v.length ≤ 2 ∨ k ∈ L) →
      (∀ k v, dictLookup stF.edge2Triangles k = some v → v.length ≤ 2) := by
  intro fuel
  induction fuel with
  | zero => intro st L stF h; cases h
  | succ n ih =>
    intro st L stF h hpre
    simp only [flipLoop, bind, Except.bind] at h
    split at h
    · cases h
    next r hr =>
      obtain ⟨st1, newSet⟩ := r
      have hall := flipPass_all_le2 L st [] st1 newSet hr hpre
      by_cases hempty : newSet.isEmpty
      · simp only [hempty, if_true, pure, Except.pure] at h
        cases h
        exact hall
      · simp only [hempty, if_false, Bool.false_eq_true] at h
        exact ih st1 newSet stF h (fun k v hk => Or.inl (hall k v hk))

/-- Every key of the map is in dictKeys. -/
theorem dictLookup_mem_keys {κ ν : Type} [DecidableEq κ] (m : List (κ × ν))
    (k : κ) (v : ν) (h : dictLookup m k = some v) : k ∈ dictKeys m := by
  induction m with
  | nil => cases h
  | cons b rest ih =>
    obtain ⟨a, w⟩ := b
    simp only [dictLookup] at h
    by_cases hak : a = k
    · simp [dictKeys, hak]
    · simp only [hak, if_false] at h
      simp [dictKeys]
      right
      have := ih (by simpa [hak] using h)
      simpa [dictKeys] using this

/-- A successful flipEdges (the per-insertion fixpoint, whose first pass
visits every key of the map) leaves every entry with at most 2 incident
triangles. -/
theorem flipEdges_all_le2 (st : DState) (fuel : Nat) (stF : DState)
    (h : flipEdges st fuel = Except.ok stF) :
    ∀ k v, dictLookup stF.edge2Triangles k = some v → v.length ≤ 2 := by
  refine flipLoop_all_le2 fuel st (dictKeys st.edge2Triangles) stF h ?_
  intro k v hk
  exact Or.inr (dictLookup_mem_keys _ _ _ hk)

/-- A successful flipOneEdge keeps every entry nonempty. -/
theorem flipOneEdge_nonempty (st : DState) (e : Edge) (st1 : DState)
    (res : List Edge) (h : flipOneEdge st e = Except.ok (st1, res))
    (hpos : ∀ k v, dictLookup st.edge2Triangles k = some v → v ≠ []) :
    ∀ k v, dictLookup st1.edge2Triangles k = some v → v ≠ [] := by
  intro k v hk
  rcases flipOneEdge_lookup_track st e st1 res h k v hk with h2 | ⟨v0, hv0, hlen⟩
  · intro hnil
    rw [hnil] at h2
    cases h2
  · intro hnil
    rw [hnil] at hlen
    exact hpos k v0 hv0 (List.length_eq_zero.mp hlen.symm)

/-- A successful flip pass keeps every entry nonempty. -/
theorem flipPass_nonempty :
    ∀ (L : List Edge) (st : DState) (acc : List Edge) (st2 : DState)
      (res2 : List Edge),
      flipPass st L acc = Except.ok (st2, res2) →
      (∀ k v, dictLookup st.edge2Triangles k = some v → v ≠ []) →
      (∀ k v, dictLookup st2.edge2Triangles k = some v → v ≠ []) := by
  intro L
  induction L with
  | nil =>
    intro st acc st2 res2 h hpos
    simp only [flipPass, pure, Except.pure] at h
    cases h
    exact hpos
  | cons e es ih =>
    intro st acc st2 res2 h hpos
    simp only [flipPass, bind, Except.bind] at h
    split at h
    · cases h
    next r hr =>
      obtain ⟨st1, res1⟩ := r
      exact ih st1 _ st2 res2 h (flipOneEdge_nonempty st e st1 res1 hr hpos)

/-- The flip fixpoint keeps every entry nonempty. -/
theorem flipLoop_nonempty :
    ∀ (fuel : Nat) (st : DState) (L : List Edge) (stF : DState),
      flipLoop fuel st L = Except.ok stF →
      (∀ k v, dictLookup st.edge2Triangles k = some v → v ≠ []) →
      (∀ k v, dictLookup stF.edge2Triangles k = some v → v ≠ []) := by
  intro fuel
  induction fuel with
  | zero => intro st L stF h; cases h
  | succ n ih =>
    intro st L stF h hpos
    simp only [flipLoop, bind, Except.bind] at h
    split at h
    · cases h
    next r hr =>
      obtain ⟨st1, newSet⟩ := r
      have h1 := flipPass_nonempty L st [] st1 newSet hr hpos
      by_cases hempty : newSet.isEmpty
      · simp only [hempty, if_true, pure, Except.pure] at h
        cases h
        exact h1
      · simp only [hempty, if_false, Bool.false_eq_true] at h
        exact ih st1 newSet stF h h1

/-- The insertion scan of addPoint keeps every entry nonempty: every value it
writes ends in an appended triangle index. -/
theorem addPointScan_nonempty (pts : List Point) (ip : Int) :
    ∀ (L : List Edge) (st : DState) (toR toA : List Edge)
      (st1 : DState) (r1 r2 : List Edge),
      addPointScan pts ip L st toR toA = Except.ok (st1, r1, r2) →
      (∀ k v, dictLookup st.edge2Triangles k = some v → v ≠ []) →
      (∀ k v, dictLookup st1.edge2Triangles k = some v → v ≠ []) := by
  intro L
  induction L with
  | nil =>
    intro st toR toA st1 r1 r2 h hpos
    simp only [addPointScan, pure, Except.pure] at h
    cases h
    exact hpos
  | cons e es ih =>
    intro st toR toA st1 r1 r2 h hpos
    simp only [addPointScan, bind, Except.bind] at h
    split at h
    · cases h
    next vis hvis =>
      by_cases hb : vis
      · simp only [hb, if_true] at h
        split at h
        · cases h
        split at h
        · cases h
        next v hv =>
          refine ih _ _ _ _ _ _ h ?_
          intro k w hk
          simp only [dictLookup_upsert] at hk
          split at hk
          · cases hk
            simp
          · split at hk
            · cases hk
              simp
            · split at hk
              · cases hk
                simp
              · exact hpos k w hk
      · simp only [hb, if_false, Bool.false_eq_true] at h
        exact ih _ _ _ _ _ _ h hpos

/-- A complete addPoint (insertion plus flip fixpoint) establishes the
incidence invariant: every entry of the edge map has exactly 1 or 2 incident
triangles, given only that no entry was empty beforehand. -/
theorem addPoint_lookup_12 (st : DState) (ip : Int) (fuel : Nat) (st2 : DState)
    (hpos : ∀ k v, dictLookup st.edge2Triangles k = some v → v ≠ [])
    (h : addPoint st ip fuel = Except.ok st2) :
    ∀ k v, dictLookup st2.edge2Triangles k = some v →
      v.length = 1 ∨ v.length = 2 := by
  simp only [addPoint, bind, Except.bind] at h
  split at h
  · cases h
  next bes =>
    split at h
    · cases h
    next r hscan =>
      obtain ⟨stS, toR, toA⟩ := r
      split at h
      · cases h
      next bes2 hupd =>
        have hposS := addPointScan_nonempty _ _ _ _ _ _ _ _ _ hscan hpos
        intro k v hk
        have hle2 := flipEdges_all_le2 _ _ _ h k v hk
        have hne : v ≠ [] := by
          refine flipLoop_nonempty _ _ _ _ h ?_ k v hk
          intro k0 v0 hk0
          exact hposS k0 v0 hk0
        have : 1 ≤ v.length := by
          cases v with
          | nil => exact absurd rfl hne
          | cons a l => simp
        omega

/-- Inserting the remaining points one by one keeps the incidence invariant. -/
theorem addPoints_lookup_12 :
    ∀ (ips : List Int) (st : DState) (fuel : Nat) (st2 : DState),
      addPoints st ips fuel = Except.ok st2 →
      (∀ k v, dictLookup st.edge2Triangles k = some v →
        v.length = 1 ∨ v.length = 2) →
      (∀ k v, dictLookup st2.edge2Triangles k = some v →
        v.length = 1 ∨ v.length = 2) := by
  intro ips
  induction ips with
  | nil =>
    intro st fuel st2 h h12
    simp only [addPoints, pure, Except.pure] at h
    cases h
    exact h12
  | cons ip rest ih =>
    intro st fuel st2 h h12
    simp only [addPoints, bind, Except.bind] at h
    split at h
    · cases h
    next st1 h1 =>
      refine ih st1 fuel st2 h ?_
      exact addPoint_lookup_12 st ip fuel st1
        (fun k v hk => by
          rcases h12 k v hk with h2 | h2 <;>
            · intro hnil
              rw [hnil] at h2
              simp at h2) h1

/-- After the whole constructor, every entry of the edge-to-triangle map has
exactly 1 or 2 incident triangles (and the seed map it starts from maps each
seed edge to the 1-element list [0]). -/
theorem delaunayInit_lookup_12 (points : List Point) (fuel : Nat) (st : DState)
    (h : delaunayInit points fuel = Except.ok st) :
    ∀ k v, dictLookup st.edge2Triangles k = some v →
      v.length = 1 ∨ v.length = 2 := by
  simp only [delaunayInit, delaunayBody, bind, Except.bind] at h
  split at h
  · cases h
  next pts hdrop =>
    split at h
    next hge =>
      split at h
      · cases h
      next tri htri =>
        split at h
        · cases h
        next t0 ht0 =>
          split at h
          · cases h
          next t1 ht1 =>
            split at h
            · cases h
            next t2 ht2 =>
              split at h
              · cases h
              next stA hadd =>
                split at h
                · cases h
                next bes1 hbes =>
                  split at h
                  · cases h
                  next bv hbv =>
                    cases h
                    intro k v hk
                    simp only at hk
                    refine addPoints_lookup_12 _ _ _ _ hadd ?_ k v hk
                    intro k0 v0 hk0
                    simp only [dictLookup_upsert] at hk0
                    split at hk0
                    · cases hk0
                      exact Or.inl rfl
                    · split at hk0
                      · cases hk0
                        exact Or.inl rfl
                      · split at hk0
                        · cases hk0
                          exact Or.inl rfl
                        · cases hk0
    next hlt =>
      cases h
      intro k v hk
      cases hk

/-- Claim C7: before the infinite face is triangulated, the edge-to-triangle
map satisfies the 1-or-2 incidence invariant at every observable state: both
after each complete addPoint (insertion plus flip fixpoint) from any state
with no empty entry, and after the seed triangle and the whole constructor.
The reason is structural: an entry only ever grows inside the insertion scan,
and the first pass of the subsequent flip fixpoint visits every key and
raises ValueError (tuple unpacking) on any entry with 3 or more triangles, so
a state with a bad entry is never observable after a complete addPoint. -/
theorem c7_edge_incidence_one_or_two :
    (∀ (st : DState) (ip : Int) (fuel : Nat) (st2 : DState),
        (∀ k v, dictLookup st.edge2Triangles k = some v → v ≠ []) →
        addPoint st ip fuel = Except.ok st2 →
        ∀ k v, dictLookup st2.edge2Triangles k = some v →
          v.length = 1 ∨ v.length = 2) ∧
    (∀ (points : List Point) (fuel : Nat) (st : DState),
        delaunayInit points fuel = Except.ok st →
        ∀ k v, dictLookup st.edge2Triangles k = some v →
          v.length = 1 ∨ v.length = 2) :=
  ⟨addPoint_lookup_12, delaunayInit_lookup_12⟩

/-- The seed state of the constructor on the four unit-square corners, before
the fourth point is inserted. -/
def sqSeedState : DState :=
  { points := [(fi 0, fi 0), (fi 1, fi 0), (fi 1, fi 1), (fi 0, fi 1)],
    triangles := [[0, 1, 2]],
    edge2Triangles := [((0, 1), [0]), ((1, 2), [0]), ((0, 2), [0])],
    boundaryEdges := some [(0, 1), (1, 2), (2, 0)],
    sorted_points := [(fi 0, fi 0), (fi 1, fi 0), (fi 1, fi 1), (fi 0, fi 1)],
    triangleEdges := none, boundaryVertices := none,
    dualPoints := none, dualEdges := none }

/-- The state after addPoint(3) on sqSeedState. -/
def sqAfterAdd : DState :=
  { sqSeedState with
    triangles := [[0, 1, 2], [0, 2, 3]],
    edge2Triangles := [((0, 1), [0]), ((1, 2), [0]), ((0, 2), [0, 1]),
                       ((2, 3), [1]), ((0, 3), [1])],
    boundaryEdges := some [(0, 1), (1, 2), (2, 3), (3, 0)] }

/-- Witness for c7_edge_incidence_one_or_two: both conjuncts applied at
concrete runs (an addPoint on the square seed, and the 3-point constructor). -/
theorem c7_edge_incidence_one_or_two_witness :
    (([0, 1] : List Int).length = 1 ∨ ([0, 1] : List Int).length = 2) ∧
    (([0] : List Int).length = 1 ∨ ([0] : List Int).length = 2) :=
  ⟨c7_edge_incidence_one_or_two.1 sqSeedState 3 100 sqAfterAdd
      (by
        intro k v hk
        simp only [sqSeedState, dictLookup] at hk
        split at hk
        · cases hk
          simp
        · split at hk
          · cases hk
            simp
          · split at hk
            · cases hk
              simp
            · cases hk)
      (by decide) (0, 2) [0, 1] (by decide),
   c7_edge_incidence_one_or_two.2 [(fi 0, fi 0), (fi 1, fi 0), (fi 0, fi 1)] 100
      dualDemoState (by decide) (0, 1) [0] (by decide)⟩

/-! Claim C3: triangle orientation. -/

/-- Reading indices 0, 1, 2 successfully forces the list shape. -/
theorem pyGet_three_shape {α : Type} (l : List α) (x y z : α)
    (h0 : pyGet l 0 = Except.ok x) (h1 : pyGet l 1 = Except.ok y)
    (h2 : pyGet l 2 = Except.ok z) :
    ∃ rest, l = x :: y :: z :: rest := by
  match l with
  | [] => cases h0
  | [a] => cases h1
  | [a, b] => cases h2
  | a :: b :: c :: rest =>
    refine ⟨rest, ?_⟩
    cases h0
    cases h1
    have hlt : (2 : Int) < (rest.length : Int) + 1 + 1 + 1 := by omega
    simp only [pyGet, pyIndex, List.length_cons] at h2
    norm_num at h2
    rw [if_pos hlt] at h2
    simp at h2
    rw [h2]

/-- Swapping the last two vertices negates the signed area exactly. -/
theorem getArea_swap (pts : List Point) (i0 i1 i2 : Int) (a : Frac)
    (h : getArea pts i0 i1 i2 = Except.ok a) :
    getArea pts i0 i2 i1 = Except.ok ⟨-a.num, a.den⟩ := by
  simp only [getArea, bind, Except.bind, pure, Except.pure] at h ⊢
  split at h
  · cases h
  next p0 hp0 =>
    split at h
    · cases h
    next p1 hp1 =>
      split at h
      · cases h
      next p2 hp2 =>
        cases h
        simp only [pcross, psub, fsub, fmul, Except.ok.injEq, Frac.mk.injEq]
        constructor <;> ring

/-- If a is strictly below -b for positive b, then -a is not. -/
theorem flt_neg_bound (a b : Frac) (hbn : 0 < b.num) (hbd : 0 < b.den)
    (h : flt a (fneg b)) : ¬ flt ⟨-a.num, a.den⟩ (fneg b) := by
  intro hc
  have hb2 : b.den ≠ 0 := by omega
  simp only [flt, fkey, fneg, hb2, if_false] at h hc
  by_cases had : a.den = 0
  · simp only [had, if_true] at h hc
    nlinarith [mul_pos hbn hbd]
  · simp only [had, if_false] at h hc
    nlinarith [mul_pos hbn hbd, mul_self_nonneg a.den]

/-- Claim C3 (amended): every triple that passes through makeCounterClockwise
(the orientation normalization applied to the seed triangle and to every
triangle created by addPoint) ends with signed area at least -EPS, i.e.
counterclockwise up to the EPS tolerance; flipOneEdge and
triangulateInfiniteFace do not normalize orientation, and after
triangulateInfiniteFace a stored triangle can be clockwise (see the
counterexample). -/
theorem c3_makeCounterClockwise_tolerance (pts : List Point) (ips tri : List Int)
    (h : makeCounterClockwise pts ips = Except.ok tri) :
    ∃ i0 i1 i2 a,
      pyGet tri 0 = Except.ok i0 ∧ pyGet tri 1 = Except.ok i1 ∧
      pyGet tri 2 = Except.ok i2 ∧ getArea pts i0 i1 i2 = Except.ok a ∧
      ¬ flt a (fneg EPS) := by
  simp only [makeCounterClockwise, bind, Except.bind, pure, Except.pure] at h
  split at h
  · cases h
  next i0 h0 =>
    split at h
    · cases h
    next i1 h1 =>
      split at h
      · cases h
      next i2 h2 =>
        split at h
        · cases h
        next area harea =>
          split at h
          next hswap =>
            cases h
            obtain ⟨rest, hrest⟩ := pyGet_three_shape _ _ _ _ h0 h1 h2
            subst hrest
            refine ⟨i0, i2, i1, ⟨-area.num, area.den⟩, ?_, ?_, ?_,
              getArea_swap _ _ _ _ _ harea,
              flt_neg_bound area EPS (by decide) (by decide) hswap⟩
            · simp [List.set, pyGet, pyIndex]
            · simp [List.set, pyGet, pyIndex, List.get?]
            · simp [List.set, pyGet, pyIndex, List.get?]
          next hswap =>
            cases h
            exact ⟨i0, i1, i2, area, h0, h1, h2, harea, hswap⟩

/-- A convex pentagon, listed so that the sorted order keeps the apex first. -/
def pentagonPts : List Point :=
  [(fi 0, fi 2), (fi 2, fi 1), (fi 1, fi (-2)), (fi (-1), fi (-2)), (fi (-2), fi 1)]

/-- Claim C3 (counterexample): running the full construction on the pentagon
and then triangulateInfiniteFace stores the triangle [0,1,4] (an index-sorted
triple appended by the infinite-face step, which does not reorient), whose
signed area is strictly negative -- a clockwise triangle in the triangle
list, contradicting the claim at the observation point after
triangulateInfiniteFace. -/
theorem c3_counterexample_cw_after_infinite_face :
    (delaunayInit pentagonPts 100 >>= fun st =>
        triangulateInfiniteFace st 100).toOption.map
        (fun st => (st.triangles.get? 3,
          (getArea st.points 0 1 4).toOption.map (fun a => decide (flt a (fi 0)))))
      = some (some [0, 1, 4], some true) := by
  decide

/-- Witness for c3_makeCounterClockwise_tolerance: normalizing the clockwise
triple [0,2,1] over the points (0,0), (1,0), (0,1) swaps it to [0,1,2]. -/
theorem c3_makeCounterClockwise_tolerance_witness :
    ∃ i0 i1 i2 a,
      pyGet ([0, 1, 2] : List Int) 0 = Except.ok i0 ∧
      pyGet ([0, 1, 2] : List Int) 1 = Except.ok i1 ∧
      pyGet ([0, 1, 2] : List Int) 2 = Except.ok i2 ∧
      getArea [(fi 0, fi 0), (fi 1, fi 0), (fi 0, fi 1)] i0 i1 i2 = Except.ok a ∧
      ¬ flt a (fneg EPS) :=
  c3_makeCounterClockwise_tolerance
    [(fi 0, fi 0), (fi 1, fi 0), (fi 0, fi 1)] [0, 2, 1] [0, 1, 2] (by decide)

/-! Claims C9 and C10: the constructor against the caller's heap. -/

/-- A heap of CPython list objects holding points; a Python variable of list
type is an index into this heap, so aliasing is observable. -/
abbrev PyHeap := List (List Point)

/-- Dereference a list object. -/
def heapRead (h : PyHeap) (r : Nat) : List Point := (h.get? r).getD []

/-- Mutate a list object in place. -/
def heapWrite (h : PyHeap) (r : Nat) (v : List Point) : PyHeap := h.set r v

/-- Allocate a fresh list object (points[:] creates a new list). -/
def heapAlloc (h : PyHeap) (v : List Point) : PyHeap × Nat := (h ++ [v], h.length)

/-- Delaunay2d.__init__ against the heap: the caller passes a reference to
its own list.  The constructor reads the caller's list to compute the
centroid, copies it into a fresh list object (self.points = points[:]),
sorts and prunes only that copy in place, and computes everything else from
the pruned copy.  When the degenerate-prefix loop raises, the elided
intermediate deletions also only write the self cell, so the heap is
returned as of the last modelled write. -/
def delaunayInitHeap (h : PyHeap) (pointsRef : Nat) (fuel : Nat) :
    PyHeap × Except String DState :=
  let callerList := heapRead h pointsRef
  let alloc := heapAlloc h callerList
  let h1 := alloc.1
  let selfRef := alloc.2
  let h2 := heapWrite h1 selfRef (sortPoints (heapRead h1 selfRef))
  let sorted := heapRead h2 selfRef
  match dropPoints callerList.length (heapRead h2 selfRef) with
  | Except.error e => (h2, Except.error e)
  | Except.ok pts =>
    let h3 := heapWrite h2 selfRef pts
    (h3, delaunayBody sorted pts fuel)

/-- Reading another cell is unaffected by a write. -/
theorem heapRead_write_ne (h : PyHeap) (r s : Nat) (v : List Point)
    (hne : s ≠ r) : heapRead (heapWrite h s v) r = heapRead h r := by
  unfold heapRead heapWrite
  rw [List.get?_set_ne _ _ hne]

/-- Reading below the allocation point is unaffected by an allocation. -/
theorem heapRead_alloc_lt (h : PyHeap) (r : Nat) (v : List Point)
    (hr : r < h.length) : heapRead (h ++ [v]) r = heapRead h r := by
  unfold heapRead
  rw [List.get?_append hr]

/-- Reading the freshly allocated cell yields the allocated value. -/
theorem heapRead_alloc_self (h : PyHeap) (v : List Point) :
    heapRead (h ++ [v]) h.length = v := by
  unfold heapRead
  rw [List.get?_append_right (le_refl _)]
  simp

/-- Reading back a write to a valid cell yields the written value. -/
theorem heapRead_write_self (h : PyHeap) (r : Nat) (v : List Point)
    (hr : r < h.length) : heapRead (heapWrite h r v) r = v := by
  unfold heapRead heapWrite
  rw [List.get?_set_eq_of_lt v hr]
  rfl

/-- Claim C10: the constructor never mutates the caller's list object -- all
writes go to the freshly allocated copy, so after Delaunay2d(points) the
caller's list holds the same elements in the same order as before (this also
holds at the point where the degenerate-prefix loop raises). -/
theorem c10_constructor_preserves_callers_list (h : PyHeap) (r : Nat)
    (fuel : Nat) (hr : r < h.length) :
    heapRead (delaunayInitHeap h r fuel).1 r = heapRead h r := by
  have hne : h.length ≠ r := fun he => absurd (he ▸ hr) (lt_irrefl _)
  simp only [delaunayInitHeap, heapAlloc]
  split
  · rw [heapRead_write_ne _ _ _ _ hne, heapRead_alloc_lt _ _ _ hr]
  · rw [heapRead_write_ne _ _ _ _ hne, heapRead_write_ne _ _ _ _ hne,
        heapRead_alloc_lt _ _ _ hr]

/-- Witness for c10_constructor_preserves_callers_list: a caller's two-cell
heap where cell 0 holds the square and cell 1 another list. -/
theorem c10_constructor_preserves_callers_list_witness :
    heapRead (delaunayInitHeap
        [[(fi 0, fi 0), (fi 1, fi 0), (fi 1, fi 1), (fi 0, fi 1)],
         [(fi 5, fi 5)]] 0 100).1 0
      = heapRead
        [[(fi 0, fi 0), (fi 1, fi 0), (fi 1, fi 1), (fi 0, fi 1)],
         [(fi 5, fi 5)]] 0 :=
  c10_constructor_preserves_callers_list _ 0 100 (by decide)

/-- Claim C9: the construction is deterministic -- its result depends only on
the value of the caller's point list, not on where that list lives: two runs
over identical point sequences (in different heaps, at different references)
return identical results, triangle list included. -/
theorem c9_construction_deterministic (h1 h2 : PyHeap) (r1 r2 : Nat)
    (fuel : Nat) (hv : heapRead h1 r1 = heapRead h2 r2) :
    (delaunayInitHeap h1 r1 fuel).2 = (delaunayInitHeap h2 r2 fuel).2 := by
  have e1 : ∀ (h : PyHeap) (v : List Point),
      heapRead (heapWrite (h ++ [v]) h.length (sortPoints v)) h.length
        = sortPoints v := by
    intro h v
    refine heapRead_write_self _ _ _ ?_
    simp
  simp only [delaunayInitHeap, heapAlloc, heapRead_alloc_self]
  rw [e1, e1, hv]
  cases hd : dropPoints (heapRead h2 r2).length (sortPoints (heapRead h2 r2)) <;>
    simp

/-- Witness for c9_construction_deterministic: the same square point list at
reference 0 of a one-cell heap and at reference 1 of a two-cell heap. -/
theorem c9_construction_deterministic_witness :
    (delaunayInitHeap [[(fi 0, fi 0), (fi 1, fi 0), (fi 1, fi 1), (fi 0, fi 1)]]
        0 100).2
      = (delaunayInitHeap
          [[(fi 9, fi 9)], [(fi 0, fi 0), (fi 1, fi 0), (fi 1, fi 1), (fi 0, fi 1)]]
          1 100).2 :=
  c9_construction_deterministic _ _ 0 1 100 (by decide)

/-! Claim C5: triangulateInfiniteFace terminates with n - 2 new triangles.

The combinatorial setting: the queue Q lists the vertices of the current
outer face in cyclic order; the edges of the mesh restricted to these
vertices form a non-crossing chord system of the cycle (the mesh is planar
with the outer face outside the cycle).  The loop rotates when the head
distance-2 pair is already an edge and otherwise cuts the ear, which removes
one vertex; crossing-freeness guarantees that a rotation is never needed
twice in a row, which bounds the loop. -/

/-- Strict membership of position k in the forward arc from position i to
position j of a cycle (positions in 0..n-1; the formula is independent of n). -/
def strictInArc (i j k : Nat) : Prop :=
  if i ≤ j then i < k ∧ k < j else i < k ∨ k < j

instance strictInArcDecidable (i j k : Nat) : Decidable (strictInArc i j k) :=
  decidable_of_iff (if i ≤ j then i < k ∧ k < j else i < k ∨ k < j) Iff.rfl

/-- Two chords with endpoint positions (i,j) and (k,l) cross iff exactly one
of k, l lies strictly inside the arc from i to j. -/
def crossPos (i j k l : Nat) : Prop :=
  (strictInArc i j k ∧ ¬ strictInArc i j l) ∨
  (¬ strictInArc i j k ∧ strictInArc i j l)

instance crossPosDecidable (i j k l : Nat) : Decidable (crossPos i j k l) :=
  decidable_of_iff
    ((strictInArc i j k ∧ ¬ strictInArc i j l) ∨
      (¬ strictInArc i j k ∧ strictInArc i j l)) Iff.rfl

/-- An unordered pair is an edge of the mesh (the source checks both tuple
orders). -/
def epair (E : List Edge) (a b : Int) : Prop := (a, b) ∈ E ∨ (b, a) ∈ E

instance epairDecidable (E : List Edge) (a b : Int) : Decidable (epair E a b) :=
  decidable_of_iff ((a, b) ∈ E ∨ (b, a) ∈ E) Iff.rfl

/-- Total read of a queue position (positions are always in range where it
is used; out of range gives a harmless default). -/
def cget : List Int → Nat → Int
  | [], _ => 0
  | a :: _, 0 => a
  | _ :: l, i + 1 => cget l i

/-- Two chords of the outer cycle, given by their endpoint positions, do not
form a crossing configuration (distinct positions, both mesh edges, arcs
separating each other). -/
def noCrossBody (E : List Edge) (Q : List Int) (i j k l : Nat) : Prop :=
  ¬ (i ≠ j ∧ i ≠ k ∧ i ≠ l ∧ j ≠ k ∧ j ≠ l ∧ k ≠ l ∧
     epair E (cget Q i) (cget Q j) ∧ epair E (cget Q k) (cget Q l) ∧
     crossPos i j k l)

instance noCrossBodyDecidable (E : List Edge) (Q : List Int) (i j k l : Nat) :
    Decidable (noCrossBody E Q i j k l) :=
  decidable_of_iff
    (¬ (i ≠ j ∧ i ≠ k ∧ i ≠ l ∧ j ≠ k ∧ j ≠ l ∧ k ≠ l ∧
       epair E (cget Q i) (cget Q j) ∧ epair E (cget Q k) (cget Q l) ∧
       crossPos i j k l)) Iff.rfl

/-- The mesh edges with all four endpoints on the current outer cycle are
pairwise non-crossing (planarity of the triangulation seen from the outer
face). -/
def NoCross (E : List Edge) (Q : List Int) : Prop :=
  ∀ i < Q.length, ∀ j < Q.length, ∀ k < Q.length, ∀ l < Q.length,
    noCrossBody E Q i j k l

instance noCrossDecidable (E : List Edge) (Q : List Int) : Decidable (NoCross E Q) :=
  decidable_of_iff
    (∀ i < Q.length, ∀ j < Q.length, ∀ k < Q.length, ∀ l < Q.length,
      noCrossBody E Q i j k l) Iff.rfl

/-- Elimination form of NoCross: two distinct-position chords never cross. -/
theorem NoCross_elim {E : List Edge} {Q : List Int} (h : NoCross E Q)
    {i j k l : Nat} (hi : i < Q.length) (hj : j < Q.length) (hk : k < Q.length)
    (hl : l < Q.length) (hij : i ≠ j) (hik : i ≠ k) (hil : i ≠ l) (hjk : j ≠ k)
    (hjl : j ≠ l) (hkl : k ≠ l) (h1 : epair E (cget Q i) (cget Q j))
    (h2 : epair E (cget Q k) (cget Q l)) : ¬ crossPos i j k l :=
  fun hc => h i hi j hj k hk l hl ⟨hij, hik, hil, hjk, hjl, hkl, h1, h2, hc⟩

/-- Every cyclically adjacent pair of the outer cycle is a key of the
edge-to-triangle map (these are looked up by the ear and closing steps). -/
def AdjKeys (M : List (Edge × List Int)) (Q : List Int) : Prop :=
  ∀ i < Q.length,
    (dictLookup M (sortedEdge (cget Q i, cget Q ((i + 1) % Q.length)))).isSome

instance adjKeysDecidable (M : List (Edge × List Int)) (Q : List Int) :
    Decidable (AdjKeys M Q) :=
  decidable_of_iff
    (∀ i < Q.length,
      (dictLookup M (sortedEdge (cget Q i, cget Q ((i + 1) % Q.length)))).isSome)
    Iff.rfl

/-- The successor map of the cycle written with an if. -/
theorem succ_mod_eq (n x : Nat) (hx : x < n) :
    (x + 1) % n = if x + 1 = n then 0 else x + 1 := by
  by_cases hxe : x + 1 = n
  · simp [hxe, Nat.mod_self]
  · rw [Nat.mod_eq_of_lt (by omega)]
    simp [hxe]

/-- Shifting all three positions by one around the cycle does not change
strict arc membership. -/
theorem strictInArc_shift {n i j k : Nat} (hi : i < n) (hj : j < n) (hk : k < n)
    (hij : i ≠ j) (hik : i ≠ k) (hjk : j ≠ k) :
    (strictInArc ((i + 1) % n) ((j + 1) % n) ((k + 1) % n) ↔ strictInArc i j k) := by
  rw [succ_mod_eq n i hi, succ_mod_eq n j hj, succ_mod_eq n k hk]
  unfold strictInArc
  split_ifs <;> omega

/-- Shifting all four positions by one around the cycle does not change
chord crossing. -/
theorem crossPos_shift {n i j k l : Nat} (hi : i < n) (hj : j < n) (hk : k < n)
    (hl : l < n) (hij : i ≠ j) (hik : i ≠ k) (hil : i ≠ l) (hjk : j ≠ k)
    (hjl : j ≠ l) (hkl : k ≠ l) :
    (crossPos ((i + 1) % n) ((j + 1) % n) ((k + 1) % n) ((l + 1) % n) ↔
      crossPos i j k l) := by
  unfold crossPos
  rw [strictInArc_shift hi hj hk hij hik hjk, strictInArc_shift hi hj hl hij hil hjl]

/-- Crossing is insensitive to the orientation of the first chord. -/
theorem crossPos_swap {i j k l : Nat} (hij : i ≠ j) (hik : i ≠ k) (hil : i ≠ l)
    (hjk : j ≠ k) (hjl : j ≠ l) :
    (crossPos i j k l ↔ crossPos j i k l) := by
  unfold crossPos strictInArc
  split_ifs <;> omega

/-- A chord between cyclically adjacent positions crosses nothing, and
nothing crosses it. -/
theorem crossPos_adjacent {n i j k l : Nat} (hi : i < n) (hj : j < n)
    (hk : k < n) (hl : l < n) (hadj : j = (i + 1) % n)
    (hij : i ≠ j) (hkl : k ≠ l) (hki : k ≠ i) (hkj : k ≠ j) (hli : l ≠ i)
    (hlj : l ≠ j) :
    ¬ crossPos i j k l ∧ ¬ crossPos k l i j := by
  rw [succ_mod_eq n i hi] at hadj
  unfold crossPos strictInArc
  split_ifs at hadj ⊢ <;> omega

/-! Transfer lemmas for the loop invariants of triangulateInfiniteFace. -/

theorem cget_cons_zero (a : Int) (l : List Int) : cget (a :: l) 0 = a := rfl

theorem cget_cons_succ (a : Int) (l : List Int) (i : Nat) :
    cget (a :: l) (i + 1) = cget l i := rfl

theorem cget_eq_getElem : ∀ (l : List Int) (i : Nat) (h : i < l.length), cget l i = l[i]
  | [], i, h => by simp at h
  | a :: l, 0, _ => rfl
  | a :: l, i + 1, h => by
    rw [cget_cons_succ, List.getElem_cons_succ]
    exact cget_eq_getElem l i (by simpa using h)

theorem cget_append_right : ∀ (l l2 : List Int) (i : Nat),
    cget (l ++ l2) (l.length + i) = cget l2 i
  | [], l2, i => by simp [List.nil_append]
  | a :: l, l2, i => by
    have h : (a :: l).length + i = (l.length + i) + 1 := by
      simp [List.length_cons]
      omega
    rw [h, List.cons_append, cget_cons_succ]
    exact cget_append_right l l2 i

/-- Reading a rotated queue is reading the original one position later. -/
theorem cget_rotate (Q : List Int) (i : Nat) (h : i < Q.length) :
    cget (Q.rotate 1) i = cget Q ((i + 1) % Q.length) := by
  have h1 : i < (Q.rotate 1).length := by simpa using h
  have h2 : (i + 1) % Q.length < Q.length := Nat.mod_lt _ (by omega)
  rw [cget_eq_getElem _ _ h1, cget_eq_getElem _ _ h2]
  exact List.getElem_rotate Q 1 i h1

/-- A rotation of the queue preserves the non-crossing invariant. -/
theorem NoCross_rotate {E : List Edge} {Q : List Int} (h : NoCross E Q) :
    NoCross E (Q.rotate 1) := by
  intro i hi j hj k hk l hl
  simp only [noCrossBody]
  rintro ⟨hij, hik, hil, hjk, hjl, hkl, h1, h2, hcross⟩
  simp only [List.length_rotate] at hi hj hk hl
  have hn : 0 < Q.length := by omega
  rw [cget_rotate _ _ hi, cget_rotate _ _ hj] at h1
  rw [cget_rotate _ _ hk, cget_rotate _ _ hl] at h2
  have hne : ∀ a b : Nat, a < Q.length → b < Q.length → a ≠ b →
      (a + 1) % Q.length ≠ (b + 1) % Q.length := by
    intro a b ha hb hab
    rw [succ_mod_eq _ _ ha, succ_mod_eq _ _ hb]
    split_ifs <;> omega
  exact NoCross_elim h (Nat.mod_lt _ hn) (Nat.mod_lt _ hn) (Nat.mod_lt _ hn)
    (Nat.mod_lt _ hn)
    (hne _ _ hi hj hij) (hne _ _ hi hk hik) (hne _ _ hi hl hil)
    (hne _ _ hj hk hjk) (hne _ _ hj hl hjl) (hne _ _ hk hl hkl) h1 h2
    ((crossPos_shift hi hj hk hl hij hik hil hjk hjl hkl).mpr hcross)

/-- Removing the last queue entry preserves the non-crossing invariant. -/
theorem NoCross_dropLast {E : List Edge} {Q : List Int} (h : NoCross E Q) :
    NoCross E Q.dropLast := by
  intro i hi j hj k hk l hl
  simp only [noCrossBody]
  rintro ⟨hij, hik, hil, hjk, hjl, hkl, h1, h2, hcross⟩
  rw [List.length_dropLast] at hi hj hk hl
  have hg : ∀ a : Nat, a < Q.length - 1 → cget Q.dropLast a = cget Q a := by
    intro a ha
    have ha1 : a < Q.dropLast.length := by rw [List.length_dropLast]; exact ha
    have ha2 : a < Q.length := by omega
    rw [cget_eq_getElem _ _ ha1, cget_eq_getElem _ _ ha2]
    exact List.getElem_dropLast _ _ _
  rw [hg _ hi, hg _ hj] at h1
  rw [hg _ hk, hg _ hl] at h2
  exact NoCross_elim h (i := i) (j := j) (k := k) (l := l) (by omega) (by omega)
    (by omega) (by omega) hij hik hil hjk hjl hkl h1 h2 hcross

/-- Crossing is insensitive to the orientation of the second chord. -/
theorem crossPos_swap2 {i j k l : Nat} : crossPos i j k l ↔ crossPos i j l k := by
  unfold crossPos
  tauto

/-- Adding an edge between two cyclically adjacent queue vertices preserves
the non-crossing invariant. -/
theorem NoCross_setAdd_adjacent {E : List Edge} {Q : List Int} {x : Edge} {p : Nat}
    (hnd : Q.Nodup) (h : NoCross E Q) (hp : p < Q.length)
    (hx : (x.1 = cget Q p ∧ x.2 = cget Q ((p + 1) % Q.length)) ∨
          (x.1 = cget Q ((p + 1) % Q.length) ∧ x.2 = cget Q p)) :
    NoCross (setAdd E x) Q := by
  have hq : (p + 1) % Q.length < Q.length := Nat.mod_lt _ (by omega)
  have hinj : ∀ a b : Nat, a < Q.length → b < Q.length → cget Q a = cget Q b → a = b := by
    intro a b ha hb hab
    rw [cget_eq_getElem _ _ ha, cget_eq_getElem _ _ hb] at hab
    exact (List.Nodup.getElem_inj_iff hnd).mp hab
  intro i hi j hj k hk l hl
  simp only [noCrossBody]
  rintro ⟨hij, hik, hil, hjk, hjl, hkl, h1, h2, hcross⟩
  have hclass : ∀ a b : Int, epair (setAdd E x) a b →
      epair E a b ∨ (a = x.1 ∧ b = x.2) ∨ (a = x.2 ∧ b = x.1) := by
    intro a b hab
    rcases hab with hab | hab
    · rcases (mem_setAdd E x (a, b)).mp hab with hab | hab
      · exact Or.inl (Or.inl hab)
      · exact Or.inr (Or.inl ⟨congrArg Prod.fst hab, congrArg Prod.snd hab⟩)
    · rcases (mem_setAdd E x (b, a)).mp hab with hab | hab
      · exact Or.inl (Or.inr hab)
      · exact Or.inr (Or.inr ⟨congrArg Prod.snd hab, congrArg Prod.fst hab⟩)
  have hpos : ∀ a b : Nat, a < Q.length → b < Q.length →
      ((cget Q a = x.1 ∧ cget Q b = x.2) ∨ (cget Q a = x.2 ∧ cget Q b = x.1)) →
      (a = p ∧ b = (p + 1) % Q.length) ∨ (a = (p + 1) % Q.length ∧ b = p) := by
    intro a b ha hb hab
    rcases hab with ⟨ha1, hb1⟩ | ⟨ha1, hb1⟩ <;> rcases hx with ⟨hx1, hx2⟩ | ⟨hx1, hx2⟩
    · exact Or.inl ⟨hinj a p ha hp (ha1.trans hx1), hinj b _ hb hq (hb1.trans hx2)⟩
    · exact Or.inr ⟨hinj a _ ha hq (ha1.trans hx1), hinj b p hb hp (hb1.trans hx2)⟩
    · exact Or.inr ⟨hinj a _ ha hq (ha1.trans hx2), hinj b p hb hp (hb1.trans hx1)⟩
    · exact Or.inl ⟨hinj a p ha hp (ha1.trans hx2), hinj b _ hb hq (hb1.trans hx1)⟩
  rcases hclass _ _ h1 with h1o | h1n
  · rcases hclass _ _ h2 with h2o | h2n
    · exact NoCross_elim h hi hj hk hl hij hik hil hjk hjl hkl h1o h2o hcross
    · rcases hpos k l hk hl h2n with ⟨hk1, hl1⟩ | ⟨hk1, hl1⟩
      · have hadj : l = (k + 1) % Q.length := by rw [hk1]; exact hl1
        exact (crossPos_adjacent hk hl hi hj hadj hkl hij hik hil hjk hjl).2 hcross
      · have hadj : k = (l + 1) % Q.length := by rw [hl1]; exact hk1
        exact (crossPos_adjacent hl hk hi hj hadj (Ne.symm hkl) hij hil hik hjl hjk).2
          (crossPos_swap2.mp hcross)
  · rcases hpos i j hi hj h1n with ⟨hi1, hj1⟩ | ⟨hi1, hj1⟩
    · have hadj : j = (i + 1) % Q.length := by rw [hi1]; exact hj1
      exact (crossPos_adjacent hi hj hk hl hadj hij hkl (Ne.symm hik) (Ne.symm hjk)
        (Ne.symm hil) (Ne.symm hjl)).1 hcross
    · have hadj : i = (j + 1) % Q.length := by rw [hj1]; exact hi1
      exact (crossPos_adjacent hj hi hk hl hadj (Ne.symm hij) hkl (Ne.symm hjk)
        (Ne.symm hik) (Ne.symm hjl) (Ne.symm hil)).1
        ((crossPos_swap hij hik hil hjk hjl).mp hcross)

/-- A dict write never removes a key. -/
theorem dictLookup_upsert_isSome {κ ν : Type} [DecidableEq κ] (m : List (κ × ν))
    (k : κ) (v : ν) (q : κ) (h : (dictLookup m q).isSome) :
    (dictLookup (dictUpsert m k v) q).isSome := by
  rw [dictLookup_upsert]
  split
  · rfl
  · exact h

/-- AdjKeys survives any dict write. -/
theorem AdjKeys_upsert {M : List (Edge × List Int)} {Q : List Int} (k : Edge)
    (v : List Int) (h : AdjKeys M Q) : AdjKeys (dictUpsert M k v) Q := by
  intro i hi
  exact dictLookup_upsert_isSome _ _ _ _ (h i hi)

/-- AdjKeys survives a rotation of the queue. -/
theorem AdjKeys_rotate {M : List (Edge × List Int)} {Q : List Int}
    (h : AdjKeys M Q) : AdjKeys M (Q.rotate 1) := by
  intro i hi
  simp only [List.length_rotate] at hi ⊢
  have hn : 0 < Q.length := by omega
  have hq : (i + 1) % Q.length < Q.length := Nat.mod_lt _ hn
  rw [cget_rotate _ _ hi, cget_rotate _ _ hq, Nat.mod_add_mod]
  have h2 := h _ hq
  rw [Nat.mod_add_mod] at h2
  exact h2

/-- Rotating a nonempty list by one moves the head to the back. -/
theorem rotate_one_cons {α : Type} (a : α) (l : List α) :
    (a :: l).rotate 1 = l ++ [a] := by
  rw [List.rotate_cons_succ, List.rotate_zero]

/-- The queue produced by an ear cut, as a rotation/dropLast combination of
the original queue (the removed entry w1 is the dropped one). -/
theorem tif_queue_shape (v w1 w2 : Int) (rest : List Int) :
    ((((v :: w1 :: w2 :: rest).rotate 1).rotate 1).dropLast).rotate 1
      = rest ++ [v, w2] := by
  rw [rotate_one_cons, List.cons_append, List.cons_append, rotate_one_cons,
    List.dropLast_concat, rotate_one_cons, List.append_assoc]
  rfl

/-- The queue produced by an ear cut, as a double rotation of the queue with
w1 already removed. -/
theorem tif_queue_shape2 (v w2 : Int) (rest : List Int) :
    ((v :: w2 :: rest).rotate 1).rotate 1 = rest ++ [v, w2] := by
  rw [rotate_one_cons, List.cons_append, rotate_one_cons, List.append_assoc]
  rfl

/-- An ear cut keeps the queue duplicate-free. -/
theorem tif_queue_nodup {v w1 w2 : Int} {rest : List Int}
    (h : (v :: w1 :: w2 :: rest).Nodup) : (rest ++ [v, w2]).Nodup := by
  have h1 : ((v :: w1 :: w2 :: rest).rotate 1).Nodup := List.nodup_rotate.mpr h
  have h2 : (((v :: w1 :: w2 :: rest).rotate 1).rotate 1).Nodup :=
    List.nodup_rotate.mpr h1
  have h3 := h2.sublist (List.dropLast_sublist _)
  rw [← tif_queue_shape v w1 w2 rest]
  exact List.nodup_rotate.mpr h3

/-- An ear cut preserves the non-crossing invariant for the old edges. -/
theorem tif_queue_nocross {E : List Edge} {v w1 w2 : Int} {rest : List Int}
    (h : NoCross E (v :: w1 :: w2 :: rest)) : NoCross E (rest ++ [v, w2]) := by
  rw [← tif_queue_shape v w1 w2 rest]
  exact NoCross_rotate (NoCross_dropLast (NoCross_rotate (NoCross_rotate h)))

/-- An ear cut preserves the non-crossing invariant including the new edge
(v, w2), which joins two adjacent vertices of the new queue. -/
theorem tif_queue_nocross_new {E : List Edge} {v w1 w2 : Int} {rest : List Int}
    (hnd : (v :: w1 :: w2 :: rest).Nodup)
    (hnc : NoCross E (v :: w1 :: w2 :: rest)) :
    NoCross (setAdd E (sortedEdge (v, w2))) (rest ++ [v, w2]) := by
  have hnd2 := tif_queue_nodup hnd
  have hnc2 := tif_queue_nocross hnc
  have hlen : (rest ++ [v, w2]).length = rest.length + 2 := by
    simp [List.length_append]
  have hv : cget (rest ++ [v, w2]) rest.length = v := by
    simpa using cget_append_right rest [v, w2] 0
  have hmod : (rest.length + 1) % (rest ++ [v, w2]).length = rest.length + 1 := by
    rw [hlen]
    exact Nat.mod_eq_of_lt (by omega)
  have hw : cget (rest ++ [v, w2]) ((rest.length + 1) % (rest ++ [v, w2]).length)
      = w2 := by
    rw [hmod]
    simpa using cget_append_right rest [v, w2] 1
  apply NoCross_setAdd_adjacent (p := rest.length) hnd2 hnc2 (by rw [hlen]; omega)
  by_cases hvw : v ≤ w2
  · left
    constructor
    · rw [hv]
      simp [sortedEdge, hvw]
    · rw [hw]
      simp [sortedEdge, hvw]
  · right
    constructor
    · rw [hw]
      simp [sortedEdge, hvw]
    · rw [hv]
      simp [sortedEdge, hvw]

/-- Removing the second queue entry keeps the adjacency keys available,
provided the short-cut pair (v, w2) is itself a key. -/
theorem AdjKeys_earcut {M : List (Edge × List Int)} {v w1 w2 : Int}
    {rest : List Int} (h : AdjKeys M (v :: w1 :: w2 :: rest))
    (hnew : (dictLookup M (sortedEdge (v, w2))).isSome) :
    AdjKeys M (v :: w2 :: rest) := by
  intro i hi
  simp only [List.length_cons] at hi ⊢
  rcases i with _ | i0
  · have h1 : (0 + 1) % (rest.length + 1 + 1) = 0 + 1 := Nat.mod_eq_of_lt (by omega)
    rw [h1, cget_cons_zero, cget_cons_succ, cget_cons_zero]
    exact hnew
  · rcases Nat.lt_or_ge i0 rest.length with hc | hc
    · have e1 : (i0 + 1 + 1) % (rest.length + 1 + 1) = i0 + 1 + 1 :=
        Nat.mod_eq_of_lt (by omega)
      have hmain := h (i0 + 1 + 1) (by simp only [List.length_cons]; omega)
      simp only [List.length_cons] at hmain
      have e2 : (i0 + 1 + 1 + 1) % (rest.length + 1 + 1 + 1) = i0 + 1 + 1 + 1 :=
        Nat.mod_eq_of_lt (by omega)
      rw [e2] at hmain
      rw [e1]
      simp only [cget_cons_succ] at hmain ⊢
      exact hmain
    · have hc2 : i0 = rest.length := by omega
      subst hc2
      have e1 : (rest.length + 1 + 1) % (rest.length + 1 + 1) = 0 := Nat.mod_self _
      have hmain := h (rest.length + 1 + 1) (by simp only [List.length_cons]; omega)
      simp only [List.length_cons] at hmain
      have e2 : (rest.length + 1 + 1 + 1) % (rest.length + 1 + 1 + 1) = 0 :=
        Nat.mod_self _
      rw [e2] at hmain
      rw [e1]
      simp only [cget_cons_succ, cget_cons_zero] at hmain ⊢
      exact hmain

/-- An ear cut keeps every adjacency key of the new queue available, provided
the new diagonal is a key. -/
theorem AdjKeys_add_step {M : List (Edge × List Int)} {v w1 w2 : Int}
    {rest : List Int} (h : AdjKeys M (v :: w1 :: w2 :: rest))
    (hnew : (dictLookup M (sortedEdge (v, w2))).isSome) :
    AdjKeys M (rest ++ [v, w2]) := by
  rw [← tif_queue_shape2 v w2 rest]
  exact AdjKeys_rotate (AdjKeys_rotate (AdjKeys_earcut h hnew))

/-- One loop iteration of triangulateInfiniteFace in the rotation case: the
head distance-2 pair is already a triangle edge, so the head vertex goes to
the back. -/
theorem tifLoop_rotate_step (fuel : Nat) (st : DState) (v w1 w2 : Int)
    (rest : List Int) (E : List Edge) (hE : st.triangleEdges = some E)
    (hlen : 3 < (v :: w1 :: w2 :: rest).length)
    (hchord : (v, w2) ∈ E ∨ (w2, v) ∈ E) :
    tifLoop (fuel + 1) st (v :: w1 :: w2 :: rest) =
      tifLoop fuel st (w1 :: w2 :: rest ++ [v]) := by
  simp only [tifLoop, hE, if_pos hlen, if_pos hchord]

/-- One loop iteration of triangulateInfiniteFace in the ear-cut case: the
head triple (v, w1, w2) becomes a triangle, w1 leaves the outer face, and all
loop invariants carry over to the shortened queue. -/
theorem tifLoop_add_step (st : DState) (v w1 w2 : Int) (rest : List Int)
    (E : List Edge) (hE : st.triangleEdges = some E)
    (hlen : 3 < (v :: w1 :: w2 :: rest).length)
    (hnd : (v :: w1 :: w2 :: rest).Nodup)
    (hnc : NoCross E (v :: w1 :: w2 :: rest))
    (hadj : AdjKeys st.edge2Triangles (v :: w1 :: w2 :: rest))
    (hchord : ¬ ((v, w2) ∈ E ∨ (w2, v) ∈ E)) :
    ∃ st1,
      (∀ fuel, tifLoop (fuel + 1) st (v :: w1 :: w2 :: rest) =
        tifLoop fuel st1 (rest ++ [v, w2])) ∧
      st1.triangles.length = st.triangles.length + 1 ∧
      st1.triangleEdges = some (setAdd E (sortedEdge (v, w2))) ∧
      (rest ++ [v, w2]).Nodup ∧
      NoCross (setAdd E (sortedEdge (v, w2))) (rest ++ [v, w2]) ∧
      AdjKeys st1.edge2Triangles (rest ++ [v, w2]) := by
  have hfoe : (dictLookup st.edge2Triangles (sortedEdge (v, w1))).isSome := by
    have h0 := hadj 0 (by simp [List.length_cons])
    simp only [List.length_cons] at h0
    rw [Nat.mod_eq_of_lt (by omega), cget_cons_zero, cget_cons_succ,
      cget_cons_zero] at h0
    exact h0
  have hsoe : (dictLookup st.edge2Triangles (sortedEdge (w1, w2))).isSome := by
    have h1 := hadj (0 + 1) (by simp [List.length_cons])
    simp only [List.length_cons] at h1
    rw [Nat.mod_eq_of_lt (by omega)] at h1
    simp only [cget_cons_succ, cget_cons_zero] at h1
    exact h1
  obtain ⟨vf, hvf⟩ := Option.isSome_iff_exists.mp
    (dictLookup_upsert_isSome st.edge2Triangles (sortedEdge (v, w2))
      [((st.triangles ++
          [List.insertionSort (fun a b : Int => a ≤ b) [v, w1, w2]]).length : Int) - 1]
      (sortedEdge (v, w1)) hfoe)
  obtain ⟨vs, hvs⟩ := Option.isSome_iff_exists.mp
    (dictLookup_upsert_isSome _ (sortedEdge (v, w1))
      (vf ++ [((st.triangles ++
          [List.insertionSort (fun a b : Int => a ≤ b) [v, w1, w2]]).length : Int) - 1])
      (sortedEdge (w1, w2))
      (dictLookup_upsert_isSome st.edge2Triangles (sortedEdge (v, w2))
        [((st.triangles ++
            [List.insertionSort (fun a b : Int => a ≤ b) [v, w1, w2]]).length : Int) - 1]
        (sortedEdge (w1, w2)) hsoe))
  refine ⟨{ st with
      triangles := st.triangles ++
        [List.insertionSort (fun a b : Int => a ≤ b) [v, w1, w2]],
      edge2Triangles := dictUpsert (dictUpsert (dictUpsert st.edge2Triangles
        (sortedEdge (v, w2))
        [((st.triangles ++
            [List.insertionSort (fun a b : Int => a ≤ b) [v, w1, w2]]).length : Int) - 1])
        (sortedEdge (v, w1))
        (vf ++ [((st.triangles ++
            [List.insertionSort (fun a b : Int => a ≤ b) [v, w1, w2]]).length : Int) - 1]))
        (sortedEdge (w1, w2))
        (vs ++ [((st.triangles ++
            [List.insertionSort (fun a b : Int => a ≤ b) [v, w1, w2]]).length : Int) - 1]),
      triangleEdges := some (setAdd E (sortedEdge (v, w2))) },
    ?_, ?_, ?_, ?_, ?_, ?_⟩
  · intro fuel
    simp only [tifLoop, hE, if_pos hlen, if_neg hchord, hvf, hvs]
  · simp [List.length_append]
  · rfl
  · exact tif_queue_nodup hnd
  · exact tif_queue_nocross_new hnd hnc
  · have hnew : (dictLookup (dictUpsert (dictUpsert (dictUpsert st.edge2Triangles
        (sortedEdge (v, w2))
        [((st.triangles ++
            [List.insertionSort (fun a b : Int => a ≤ b) [v, w1, w2]]).length : Int) - 1])
        (sortedEdge (v, w1))
        (vf ++ [((st.triangles ++
            [List.insertionSort (fun a b : Int => a ≤ b) [v, w1, w2]]).length : Int) - 1]))
        (sortedEdge (w1, w2))
        (vs ++ [((st.triangles ++
            [List.insertionSort (fun a b : Int => a ≤ b) [v, w1, w2]]).length : Int) - 1]))
        (sortedEdge (v, w2))).isSome := by
      apply dictLookup_upsert_isSome
      apply dictLookup_upsert_isSome
      rw [dictLookup_upsert]
      simp
    exact AdjKeys_add_step
      (AdjKeys_upsert _ _ (AdjKeys_upsert _ _ (AdjKeys_upsert _ _ hadj))) hnew

theorem cget_one (a b : Int) (l : List Int) : cget (a :: b :: l) 1 = b := rfl

theorem cget_two (a b c : Int) (l : List Int) : cget (a :: b :: c :: l) 2 = c := rfl

/-- The while-loop of triangulateInfiniteFace succeeds on every queue that
lists a duplicate-free outer cycle whose mesh edges are non-crossing chords
and whose adjacent pairs are edge-map keys: with enough fuel it returns a
3-vertex queue having added exactly (initial length - 3) triangles, keeping
the invariants for the closing step. -/
theorem tifLoop_ok : ∀ (m : Nat) (st : DState) (Q : List Int) (E : List Edge),
    Q.length = m + 3 → st.triangleEdges = some E →
    Q.Nodup → NoCross E Q → AdjKeys st.edge2Triangles Q →
    ∃ fuel st1 Q1, tifLoop fuel st Q = Except.ok (st1, Q1) ∧ Q1.length = 3 ∧
      st1.triangles.length = st.triangles.length + m ∧ Q1.Nodup ∧
      AdjKeys st1.edge2Triangles Q1
  | 0, st, Q, E, hlen, hE, hnd, hnc, hadj => by
    refine ⟨1, st, Q, ?_, hlen, by omega, hnd, hadj⟩
    simp only [tifLoop]
    rw [if_neg (by omega)]
    rfl
  | m + 1, st, Q, E, hlen, hE, hnd, hnc, hadj => by
    have hQ : ∃ v w1 w2 r0 rest2, Q = v :: w1 :: w2 :: r0 :: rest2 := by
      rcases Q with _ | ⟨v, _ | ⟨w1, _ | ⟨w2, _ | ⟨r0, rest2⟩⟩⟩⟩ <;>
        simp only [List.length_nil, List.length_cons] at hlen <;>
        first
          | omega
          | exact ⟨_, _, _, _, _, rfl⟩
    obtain ⟨v, w1, w2, r0, rest2, rfl⟩ := hQ
    have hlen4 : 3 < (v :: w1 :: w2 :: r0 :: rest2).length := by
      simp only [List.length_cons]
      omega
    by_cases hchord : (v, w2) ∈ E ∨ (w2, v) ∈ E
    · -- the head pair is a chord: rotate, then the new head pair is free
      have hfree : ¬ ((w1, r0) ∈ E ∨ (r0, w1) ∈ E) := by
        intro hcon
        have hcp : crossPos 0 2 1 3 := by decide
        exact NoCross_elim hnc (i := 0) (j := 2) (k := 1) (l := 3)
          (by simp only [List.length_cons]; omega)
          (by simp only [List.length_cons]; omega)
          (by simp only [List.length_cons]; omega)
          (by simp only [List.length_cons]; omega)
          (by omega) (by omega) (by omega) (by omega) (by omega) (by omega)
          (show epair E (cget (v :: w1 :: w2 :: r0 :: rest2) 0)
            (cget (v :: w1 :: w2 :: r0 :: rest2) 2) from hchord)
          (show epair E (cget (v :: w1 :: w2 :: r0 :: rest2) 1)
            (cget (v :: w1 :: w2 :: r0 :: rest2) 3) from hcon) hcp
      have hrotQ : (v :: w1 :: w2 :: r0 :: rest2).rotate 1
          = w1 :: w2 :: r0 :: (rest2 ++ [v]) := by
        rw [rotate_one_cons]
        simp
      have hnd1 : (w1 :: w2 :: r0 :: (rest2 ++ [v])).Nodup := by
        rw [← hrotQ]
        exact List.nodup_rotate.mpr hnd
      have hnc1 : NoCross E (w1 :: w2 :: r0 :: (rest2 ++ [v])) := by
        rw [← hrotQ]
        exact NoCross_rotate hnc
      have hadj1 : AdjKeys st.edge2Triangles (w1 :: w2 :: r0 :: (rest2 ++ [v])) := by
        rw [← hrotQ]
        exact AdjKeys_rotate hadj
      have hlen1 : 3 < (w1 :: w2 :: r0 :: (rest2 ++ [v])).length := by
        simp only [List.length_cons, List.length_append, List.length_nil]
        omega
      obtain ⟨st1, heval, htri, hTE, hnd2, hnc2, hadj2⟩ :=
        tifLoop_add_step st w1 w2 r0 (rest2 ++ [v]) E hE hlen1 hnd1 hnc1 hadj1 hfree
      obtain ⟨fuel, stF, QF, hrun, hQF, hcount, hndF, hadjF⟩ :=
        tifLoop_ok m st1 ((rest2 ++ [v]) ++ [w1, r0]) (setAdd E (sortedEdge (w1, r0)))
          (by
            simp only [List.length_cons] at hlen
            simp only [List.length_append, List.length_cons, List.length_nil]
            omega)
          hTE hnd2 hnc2 hadj2
      refine ⟨fuel + 1 + 1, stF, QF, ?_, hQF, by omega, hndF, hadjF⟩
      have hstep1 : tifLoop (fuel + 1 + 1) st (v :: w1 :: w2 :: r0 :: rest2) =
          tifLoop (fuel + 1) st (w1 :: w2 :: (r0 :: rest2) ++ [v]) :=
        tifLoop_rotate_step (fuel + 1) st v w1 w2 (r0 :: rest2) E hE hlen4 hchord
      have hnorm : (w1 :: w2 :: (r0 :: rest2) ++ [v]) = w1 :: w2 :: r0 :: (rest2 ++ [v]) := by
        simp
      rw [hstep1, hnorm, heval fuel, hrun]
    · obtain ⟨st1, heval, htri, hTE, hnd1, hnc1, hadj1⟩ :=
        tifLoop_add_step st v w1 w2 (r0 :: rest2) E hE hlen4 hnd hnc hadj hchord
      obtain ⟨fuel, stF, QF, hrun, hQF, hcount, hndF, hadjF⟩ :=
        tifLoop_ok m st1 ((r0 :: rest2) ++ [v, w2]) (setAdd E (sortedEdge (v, w2)))
          (by
            simp only [List.length_cons] at hlen
            simp only [List.length_append, List.length_cons, List.length_nil]
            omega)
          hTE hnd1 hnc1 hadj1
      exact ⟨fuel + 1, stF, QF, (heval fuel).trans hrun, hQF, by omega, hndF, hadjF⟩

/-- The closing step succeeds on any 3-vertex outer cycle whose three edges
are keys of the edge map, and appends exactly one triangle. -/
theorem tifClose_ok (st : DState) (a b c : Int)
    (hadj : AdjKeys st.edge2Triangles [a, b, c]) :
    ∃ st1, tifClose st [a, b, c] = Except.ok st1 ∧
      st1.triangles.length = st.triangles.length + 1 := by
  have h0 := hadj 0 (by simp)
  have h1 := hadj 1 (by simp)
  have h2 := hadj 2 (by simp)
  simp only [List.length_cons, List.length_nil] at h0 h1 h2
  norm_num at h0 h1 h2
  simp only [cget_cons_zero, cget_one, cget_two] at h0 h1 h2
  have hg0 : pyGet [a, b, c] (0 : Int) = Except.ok a := rfl
  have hg1 : pyGet [a, b, c] (1 : Int) = Except.ok b := rfl
  have hg2 : pyGet [a, b, c] (2 : Int) = Except.ok c := rfl
  obtain ⟨v0, hv0⟩ := Option.isSome_iff_exists.mp h0
  obtain ⟨v1, hv1⟩ := Option.isSome_iff_exists.mp
    (dictLookup_upsert_isSome st.edge2Triangles (sortedEdge (a, b))
      (v0 ++ [((st.triangles ++ [[a, b, c]]).length : Int) - 1]) (sortedEdge (b, c)) h1)
  obtain ⟨v2, hv2⟩ := Option.isSome_iff_exists.mp
    (dictLookup_upsert_isSome _ (sortedEdge (b, c))
      (v1 ++ [((st.triangles ++ [[a, b, c]]).length : Int) - 1]) (sortedEdge (c, a))
      (dictLookup_upsert_isSome st.edge2Triangles (sortedEdge (a, b))
        (v0 ++ [((st.triangles ++ [[a, b, c]]).length : Int) - 1]) (sortedEdge (c, a)) h2))
  refine ⟨{ st with
      triangles := st.triangles ++ [[a, b, c]],
      edge2Triangles := dictUpsert (dictUpsert (dictUpsert st.edge2Triangles
        (sortedEdge (a, b)) (v0 ++ [((st.triangles ++ [[a, b, c]]).length : Int) - 1]))
        (sortedEdge (b, c)) (v1 ++ [((st.triangles ++ [[a, b, c]]).length : Int) - 1]))
        (sortedEdge (c, a)) (v2 ++ [((st.triangles ++ [[a, b, c]]).length : Int) - 1]),
      boundaryEdges := none, boundaryVertices := some none }, ?_, ?_⟩
  · simp only [tifClose, bind, Except.bind, hg0, hg1, hg2, hv0, hv1, hv2]
    rfl
  · simp [List.length_append]

/-- Claim C5: for every state whose boundary vertex cycle bv has n >= 4
distinct vertices, whose triangle-edge set restricted to the cycle is a
non-crossing chord system, and whose cyclically adjacent boundary pairs are
keys of the edge-to-triangle map (all of which hold for the hull of a
triangulation), triangulateInfiniteFace terminates (some fuel suffices for
the Python while loop) and appends exactly n - 2 new triangles. -/
theorem c5_infinite_face_count (st : DState) (bv : List Int) (E : List Edge)
    (hbv : st.boundaryVertices = some (some bv))
    (hE : st.triangleEdges = some E)
    (hn : 4 ≤ bv.length) (hnd : bv.Nodup)
    (hnc : NoCross E bv) (hadj : AdjKeys st.edge2Triangles bv) :
    ∃ fuel st1, triangulateInfiniteFace st fuel = Except.ok st1 ∧
      st1.triangles.length = st.triangles.length + (bv.length - 2) := by
  obtain ⟨fuel, stL, QL, hrun, hQL3, hcount, hndL, hadjL⟩ :=
    tifLoop_ok (bv.length - 3) st bv E (by omega) hE hnd hnc hadj
  have hshape : ∃ a b c, QL = [a, b, c] := by
    rcases QL with _ | ⟨a, _ | ⟨b, _ | ⟨c, _ | ⟨d, t⟩⟩⟩⟩ <;>
      simp only [List.length_nil, List.length_cons] at hQL3 <;>
      first
        | omega
        | exact ⟨_, _, _, rfl⟩
  obtain ⟨a, b, c, rfl⟩ := hshape
  obtain ⟨st1, hclose, hinc⟩ := tifClose_ok stL a b c hadjL
  refine ⟨fuel, st1, ?_, by omega⟩
  simp only [triangulateInfiniteFace, hbv, bind, Except.bind, hrun]
  exact hclose

/-- The pentagon state just before the infinite face is closed: the fan of 3
triangles around vertex 0 with boundary cycle [2, 1, 0, 4, 3] (this is the
value of delaunayInit pentagonPts 100). -/
def pentState : DState :=
  { points := pentagonPts,
    triangles := [[0, 2, 1], [0, 3, 2], [0, 4, 3]],
    edge2Triangles := [((0, 2), [0, 1]), ((1, 2), [0]), ((0, 1), [0]),
      ((0, 3), [1, 2]), ((2, 3), [1]), ((0, 4), [2]), ((3, 4), [2])],
    boundaryEdges := some [(2, 1), (1, 0), (3, 2), (0, 4), (4, 3)],
    sorted_points := pentagonPts,
    triangleEdges := some [(0, 2), (1, 2), (0, 1), (0, 3), (2, 3), (0, 4), (3, 4)],
    boundaryVertices := some (some [2, 1, 0, 4, 3]),
    dualPoints := none, dualEdges := none }

/-- pentState really is the constructor output on the pentagon. -/
theorem pentState_eq : delaunayInit pentagonPts 100 = Except.ok pentState := by
  decide

/-- The triangle-edge set of pentState. -/
def pentEdges : List Edge :=
  [(0, 2), (1, 2), (0, 1), (0, 3), (2, 3), (0, 4), (3, 4)]

/-- Witness for c5_infinite_face_count: the convex pentagon's hull (boundary
cycle [2, 1, 0, 4, 3], five vertices) closes with exactly 5 - 2 = 3 new
triangles. -/
theorem c5_infinite_face_count_witness :
    ∃ fuel st1, triangulateInfiniteFace pentState fuel = Except.ok st1 ∧
      st1.triangles.length =
        pentState.triangles.length + (([2, 1, 0, 4, 3] : List Int).length - 2) :=
  c5_infinite_face_count pentState [2, 1, 0, 4, 3] pentEdges (by decide) (by decide)
    (by decide) (by decide) (by decide) (by decide)
